import Mathlib

/-!
Verification development for the `pymonetdb` SQL cursor
(`src/pymonetdb/sql/cursors.py`).

Python strings are embedded as lists of characters (`PyStr`), Python's
string operations (`split`, `strip`, `startswith`, slicing, `int(...)`)
as executable Lean functions with the same semantics, and the stateful
`Cursor` object as a structure threaded explicitly through each
operation.  Fallible operations return `Except Err α × Cursor`: raising
an exception corresponds to an `Except.error` result, and the returned
cursor carries any state mutations (in particular the message log)
performed before the raise.
-/

/-- Embedding of a Python `str`: a list of characters. -/
abbrev PyStr := List Char

/-- Convert a Lean string literal to the `PyStr` embedding. -/
def toPyStr (s : String) : PyStr := s.toList

/-- Python `str.isspace` on one character (the whitespace set used by
`str.strip()` and no-argument `str.split()`). -/
def pyIsSpace (c : Char) : Bool :=
  c = ' ' ∨ c = '\t' ∨ c = '\n' ∨ c = '\r' ∨ c = '\x0b' ∨ c = '\x0c'

/-- Python `str.strip()`: remove leading and trailing whitespace. -/
def pyStrip (s : PyStr) : PyStr :=
  ((s.dropWhile pyIsSpace).reverse.dropWhile pyIsSpace).reverse

/-- Fuelled worker for `pySplitOn` (fuel makes the recursion structural,
so terms reduce by `rfl`). -/
def pySplitOnF (sep : PyStr) : Nat → PyStr → List PyStr
  | 0, s => [s]
  | _ + 1, [] => [[]]
  | fuel + 1, c :: rest =>
    if sep ≠ [] ∧ sep.isPrefixOf (c :: rest) then
      [] :: pySplitOnF sep fuel ((c :: rest).drop sep.length)
    else
      match pySplitOnF sep fuel rest with
      | [] => [[c]]
      | t :: ts => (c :: t) :: ts

/-- Python `str.split(sep)` for a non-empty separator `sep`: split on
non-overlapping occurrences of `sep`, scanning left to right; the empty
string yields `[""]`. -/
def pySplitOn (sep s : PyStr) : List PyStr :=
  pySplitOnF sep (s.length + 1) s

/-- Fuelled worker for `pySplitWs`. -/
def pySplitWsF : Nat → PyStr → List PyStr
  | 0, _ => []
  | _ + 1, [] => []
  | fuel + 1, c :: rest =>
    if pyIsSpace c then pySplitWsF fuel rest
    else ((c :: rest).takeWhile (fun x => !(pyIsSpace x))) ::
      pySplitWsF fuel ((c :: rest).dropWhile (fun x => !(pyIsSpace x)))

/-- Python `str.split()` with no argument: split on runs of whitespace,
discarding empty pieces. -/
def pySplitWs (s : PyStr) : List PyStr :=
  pySplitWsF (s.length + 1) s

/-- Decimal digit to character. -/
def digitChar (d : Nat) : Char :=
  match d with
  | 0 => '0' | 1 => '1' | 2 => '2' | 3 => '3' | 4 => '4'
  | 5 => '5' | 6 => '6' | 7 => '7' | 8 => '8' | _ => '9'

/-- Character to decimal digit, `none` for non-digits. -/
def charDigit? (c : Char) : Option Nat :=
  if c = '0' then some 0 else if c = '1' then some 1
  else if c = '2' then some 2 else if c = '3' then some 3
  else if c = '4' then some 4 else if c = '5' then some 5
  else if c = '6' then some 6 else if c = '7' then some 7
  else if c = '8' then some 8 else if c = '9' then some 9
  else none

/-- Accumulating decimal reader. -/
def pyDigitsGo (acc : Nat) : List Char → Option Nat
  | [] => some acc
  | c :: cs =>
    match charDigit? c with
    | some d => pyDigitsGo (acc * 10 + d) cs
    | none => none

/-- Read a non-empty all-digit string as a natural number. -/
def pyDigits? (s : PyStr) : Option Nat :=
  match s with
  | [] => none
  | _ => pyDigitsGo 0 s

/-- Fuelled decimal rendering worker (most significant digit first). -/
def natDigAux : Nat → Nat → List Char
  | 0, _ => []
  | fuel + 1, n =>
    if n < 10 then [digitChar n]
    else natDigAux fuel (n / 10) ++ [digitChar (n % 10)]

/-- Python `str(n)` for a natural number. -/
def natToPyStr (n : Nat) : PyStr := natDigAux (n + 1) n

/-- Python `str(i)` for an integer. -/
def intToPyStr (i : Int) : PyStr :=
  if i < 0 then '-' :: natToPyStr i.natAbs else natToPyStr i.toNat

/-- Python `int(s)`: optional surrounding whitespace, optional sign,
non-empty digit string; `none` models the `ValueError`. -/
def pyInt (s : PyStr) : Option Int :=
  match pyStrip s with
  | [] => none
  | c :: rest =>
    if c = '-' then (pyDigits? rest).map (fun n => -(Int.ofNat n))
    else if c = '+' then (pyDigits? rest).map (fun n => Int.ofNat n)
    else (pyDigits? (c :: rest)).map (fun n => Int.ofNat n)

/-- Python list indexing `l[i]` with an `int` index: negative indices
count from the end; `none` models the `IndexError`. -/
def pyGet (l : List α) (i : Int) : Option α :=
  if 0 ≤ i then l.get? i.toNat
  else if 0 ≤ i + l.length then l.get? (i + l.length).toNat
  else none

/-- Python list slicing `l[a:b]` with `int` bounds: negative bounds
count from the end, and bounds are clamped to the list. -/
def pySlice (l : List α) (a b : Int) : List α :=
  let n : Int := l.length
  let norm : Int → Int := fun x => if x < 0 then max (x + n) 0 else min x n
  (l.take (norm b).toNat).drop (norm a).toNat

/-- Python list slicing `l[a:]`. -/
def pySliceFrom (l : List α) (a : Int) : List α :=
  pySlice l a l.length

/-- Slice of `l` between integer positions `a` (inclusive) and `b`
(exclusive), clamped to valid indices.  Used by the modelled server to
answer page-fetch requests for a sub-range of the logical result set. -/
def sliceClip (l : List α) (a b : Int) : List α :=
  (l.take b.toNat).drop a.toNat

/-- Join pieces with a separator (inverse of splitting). -/
def pyJoin (sep : PyStr) : List PyStr → PyStr
  | [] => []
  | [x] => x
  | x :: xs => x ++ sep ++ pyJoin sep xs

/-!
## Data model

Embeddings of the Python values manipulated by `cursors.py`.
-/

/-- A Python scalar value as it appears in the cursor's per-statement
header vectors and column descriptions: `None`, a bool, an int, or a
string. -/
inductive PyScalar where
  | nil : PyScalar
  | b (x : Bool) : PyScalar
  | i (n : Int) : PyScalar
  | s (st : PyStr) : PyScalar
deriving DecidableEq, Repr

/-- A Python variable that is either a scalar or a list of scalars; the
local header variables of `Cursor.__store_result` (`column_name`,
`type_`, `display_size`, `internal_size`, `precision`, `scale`,
`null_ok`) have exactly these shapes at runtime. -/
inductive PyVar where
  | scalar (v : PyScalar) : PyVar
  | vlist (l : List PyScalar) : PyVar
deriving DecidableEq, Repr

/-- Iterating a Python value: strings iterate their characters (as
one-character strings), lists iterate their elements, everything else
raises `TypeError` (`none`). -/
def pyIterate : PyVar → Option (List PyScalar)
  | .scalar (.s st) => some (st.map (fun c => .s [c]))
  | .vlist l => some l
  | _ => none

/-- One cell of a result row.  `conv raw ty` stands for the value
`pythonize.convert(raw, ty)` — scalar wire-text decoding is an external
collaborator (spec §6), so it is kept symbolic; `vstr s` is a raw
string cell, used by the no-slice tuple form which stores the line text
unconverted. -/
inductive Value where
  | conv (raw : PyStr) (ty : PyScalar) : Value
  | vstr (s : PyStr) : Value
deriving DecidableEq, Repr

/-- A result row (a Python tuple of cell values). -/
abbrev Row := List Value

/-- The Python exception classes raised or logged by the cursor.
`runtimeFault k` stands for an exception raised by the Python runtime
itself (e.g. `IndexError` from list indexing, `TypeError` from
iterating a non-iterable, `ValueError` from `int(...)`), as opposed to
the exceptions the cursor code raises deliberately through
`__exception_handler`. -/
inductive ExcClass where
  | programmingError : ExcClass
  | interfaceError : ExcClass
  | valueErrorClass : ExcClass
  | indexErrorClass : ExcClass
  | warningClass : ExcClass
  | stopIterationClass : ExcClass
  | runtimeFault (kind : PyStr) : ExcClass
deriving DecidableEq, Repr

/-- A raised exception: class and message. -/
abbrev Err := ExcClass × PyStr

/-- `Cursor.__query_id`: initialised to the int `-1`, set to the
(string) first field of a result-set header line, and reset to the int
`-1` by an update response.  Python's `==` between a string and an int
is `False`, which the sum type reproduces. -/
inductive QId where
  | qint (n : Int) : QId
  | qstr (s : PyStr) : QId
deriving DecidableEq, Repr

/-- Render a query id with `'%s' %`. -/
def QId.render : QId → PyStr
  | .qint n => intToPyStr n
  | .qstr s => s

/-- The shapes a `parameters` argument of `Cursor.execute` can take:
`None`, a mapping, a sequence, a plain string, or anything else
(carrying the display of its type for the error message). -/
inductive PyParams where
  | noneP : PyParams
  | dict (items : List (PyStr × PyStr)) : PyParams
  | listP (items : List PyStr) : PyParams
  | strP (s : PyStr) : PyParams
  | other (typename : PyStr) : PyParams
deriving DecidableEq, Repr

/-- Python truthiness of a `parameters` value (`if parameters:`):
`None` and empty containers are falsy. -/
def PyParams.truthy : PyParams → Bool
  | .noneP => false
  | .dict items => items ≠ []
  | .listP items => items ≠ []
  | .strP s => s ≠ []
  | .other _ => true

/-- Modelled from the spec: the connection collaborator's reply for the
one statement it is configured with (§6).  A tabular reply carries the
server-assigned query id, the column names and types, and the full
logical result table as raw wire fields; an update reply carries the
affected-row count and generated id; `rawBlock` is a canned raw
response block. -/
inductive ServerReply where
  | resultSet (qid : PyStr) (names types : List PyStr)
      (table : List (List PyStr)) : ServerReply
  | updated (affected lastid : Nat) : ServerReply
  | rawBlock (b : PyStr) : ServerReply
deriving DecidableEq, Repr

/-- Modelled from the spec: the connection collaborator (§6).  It owns
the default page size (`replysize`), the configured reply for the
statement under test, and a log of the control commands it has been
asked to run. -/
structure Connection where
  replysize : Int
  reply : ServerReply
  log : List PyStr
deriving DecidableEq, Repr

/-- The cursor state: the fields set up by `Cursor.__init__`.
`connection = none` models a released connection reference (`close`),
`executed` models `__executed`, `offset` models `__offset`, `rows`
models `__rows`, and `query_id` models `__query_id`.  `description` is
`none` for Python `None`; a column description entry is the 7-element
tuple produced by `zip` in `__store_result`. -/
structure Cursor where
  connection : Option Connection
  operation : PyStr
  arraysize : Int
  rowcount : Int
  description : Option (List (List PyScalar))
  rownumber : Int
  executed : Option PyStr
  offset : Int
  rows : List Row
  query_id : QId
  messages : List (ExcClass × PyStr)
  lastrowid : Option Int
deriving DecidableEq, Repr

/-- `Cursor.__init__(connection)`. -/
def Cursor.init (connection : Connection) : Cursor where
  connection := some connection
  operation := []
  arraysize := connection.replysize
  rowcount := -1
  description := none
  rownumber := -1
  executed := none
  offset := 0
  rows := []
  query_id := .qint (-1)
  messages := []
  lastrowid := none

/-- Truthiness of `self.__executed` (`if not self.__executed`): falsy
when no statement was ever executed (`None`) or the executed statement
was the empty string. -/
def executedTruthy : Option PyStr → Bool
  | none => false
  | some s => s ≠ []

/-!
## Protocol line prefixes

Modelled from the spec (§6: "line-initial prefix bytes, one per event
kind") together with the `pymonetdb.mapi` constants referenced by
`cursors.py`, which live outside `src/`: informational message `#`,
result-set header `&1`, update response `&2`, schema change `&3`,
transaction boundary `&4`, buffer reset `&6`, column header `%`, data
tuple `[`, raw tuple `=`, error `!`, and the empty line as the
end-of-response prompt. -/

/-- Prefix of an informational message line. -/
def MSG_INFO : PyStr := toPyStr "#"
/-- Prefix of a result-set-opened line. -/
def MSG_QTABLE : PyStr := toPyStr "&1"
/-- Prefix of an update-completed line. -/
def MSG_QUPDATE : PyStr := toPyStr "&2"
/-- Prefix of a schema-change line. -/
def MSG_QSCHEMA : PyStr := toPyStr "&3"
/-- Prefix of a transaction-boundary line. -/
def MSG_QTRANS : PyStr := toPyStr "&4"
/-- Prefix of a buffer-reset line. -/
def MSG_QBLOCK : PyStr := toPyStr "&6"
/-- Prefix of a column-header line. -/
def MSG_HEADER : PyStr := toPyStr "%"
/-- Prefix of a data-tuple line. -/
def MSG_TUPLE : PyStr := toPyStr "["
/-- Prefix of a raw (unsliced) tuple line. -/
def MSG_TUPLE_NOSLICE : PyStr := toPyStr "="
/-- The end-of-response prompt: an empty line. -/
def MSG_PROMPT : PyStr := []
/-- Prefix of a server error line. -/
def MSG_ERROR : PyStr := toPyStr "!"

/-!
## Message decoder and cursor operations

Faithful embeddings of `Cursor.__store_result`, `Cursor.__parse_tuple`,
and the public cursor methods.
-/

/-- `Cursor.__exception_handler`: append `(exception class, message)` to
the message list, then raise. -/
def Cursor.exceptionHandler (c : Cursor) (cls : ExcClass) (msg : PyStr) :
    Cursor × Err :=
  ({c with messages := c.messages ++ [(cls, msg)]}, (cls, msg))

/-- The local header variables of `__store_result`, with their initial
values (`column_name = ""`, `type_ = []`, the four size fields `= 0`,
`null_ok = False`). -/
structure HdrVars where
  column_name : PyVar := .scalar (.s [])
  type_ : PyVar := .vlist []
  display_size : PyVar := .scalar (.i 0)
  internal_size : PyVar := .scalar (.i 0)
  precision : PyVar := .scalar (.i 0)
  scale : PyVar := .scalar (.i 0)
  null_ok : PyVar := .scalar (.b false)
deriving DecidableEq, Repr

/-- `list(zip(v1, ..., v7))` over the seven header variables: `none`
models the `TypeError` when one of them is not iterable; otherwise the
result is truncated to the shortest iterable. -/
def pyZipDesc (vs : List PyVar) : Option (List (List PyScalar)) :=
  match vs.mapM pyIterate with
  | none => none
  | some ls =>
    let n := match ls with
      | [] => 0
      | l :: rest => rest.foldl (fun m x => min m x.length) l.length
    some ((List.range n).map (fun idx => ls.map (fun l => l.getD idx .nil)))

/-- `[[int(j) for j in i.split()] for i in values]`; `none` models the
`ValueError` from `int(...)`. -/
def parseTypesizes (values : List PyStr) : Option (List (List Int)) :=
  values.mapM (fun v => (pySplitWs v).mapM pyInt)

/-- Python item assignment `v[idx] = x`: `TypeError` when `v` is not a
list, `IndexError` when the index is out of range. -/
def setItem (v : PyVar) (idx : Nat) (x : PyScalar) : Except PyStr PyVar :=
  match v with
  | .vlist l =>
    if idx < l.length then .ok (.vlist (l.set idx x))
    else .error (toPyStr "IndexError")
  | .scalar _ => .error (toPyStr "TypeError")

/-- The `for num, typeelem in enumerate(type_)` loop of the
`typesizes` header branch: for each `decimal` column, copy the
precision/scale pair into the `precision` and `scale` vectors. -/
def decimalLoop (typesizes : List (List Int)) :
    List (Nat × PyScalar) → PyVar → PyVar → Except PyStr (PyVar × PyVar)
  | [], p, sc => .ok (p, sc)
  | (num, telem) :: rest, p, sc =>
    if telem = .s (toPyStr "decimal") then
      match typesizes.get? num with
      | none => .error (toPyStr "IndexError")
      | some pair =>
        match pair.get? 0 with
        | none => .error (toPyStr "IndexError")
        | some p0 =>
          match setItem p num (.i p0) with
          | .error k => .error k
          | .ok p' =>
            match pair.get? 1 with
            | none => .error (toPyStr "IndexError")
            | some p1 =>
              match setItem sc num (.i p1) with
              | .error k => .error k
              | .ok sc' => decimalLoop typesizes rest p' sc'
    else decimalLoop typesizes rest p sc

/-- The `if identity == "name" / "type" / "typesizes"` chain of the
header branch of `__store_result`: update the header variables
(unrecognized identities are ignored).  Errors carry the kind of the
Python runtime exception. -/
def headerUpdate (hv : HdrVars) (identity : PyStr) (values : List PyStr) :
    Except PyStr HdrVars :=
  if identity = toPyStr "name" then
    .ok {hv with column_name := .vlist (values.map .s)}
  else if identity = toPyStr "type" then
    .ok {hv with type_ := .vlist (values.map .s)}
  else if identity = toPyStr "typesizes" then
    match parseTypesizes values with
    | none => .error (toPyStr "ValueError")
    | some tss =>
      match tss.mapM List.head? with
      | none => .error (toPyStr "IndexError")
      | some firsts =>
        let hv1 := {hv with internal_size := .vlist (firsts.map .i)}
        match pyIterate hv1.type_ with
        | none => .error (toPyStr "TypeError")
        | some telems =>
          match decimalLoop tss telems.enum hv1.precision hv1.scale with
          | .error k => .error k
          | .ok (p, sc) => .ok {hv1 with precision := p, scale := sc}
  else .ok hv

/-- The per-field conversion of `__parse_tuple`:
`pythonize.convert(element.strip(), description[1])` for each element,
zipped with the description; `none` models the `IndexError` when a
description entry has fewer than two items. -/
def convertFields : List PyStr → List (List PyScalar) → Option Row
  | el :: els, d :: ds =>
    match d.get? 1 with
    | none => none
    | some ty => (convertFields els ds).map (fun r => Value.conv (pyStrip el) ty :: r)
  | _, _ => some []

/-- `Cursor.__parse_tuple`: slice the line into fields on `",\t"`, check
the field count against the column count, and convert each field. -/
def Cursor.parseTuple (c : Cursor) (line : PyStr) : Except Err Row × Cursor :=
  let elements := pySplitOn (toPyStr ",\t") ((line.drop 1).dropLast)
  match c.description with
  | none => (.error (.runtimeFault (toPyStr "TypeError"), toPyStr "len of None"), c)
  | some desc =>
    if elements.length = desc.length then
      match convertFields elements desc with
      | some row => (.ok row, c)
      | none => (.error (.runtimeFault (toPyStr "IndexError"), toPyStr "description entry"), c)
    else
      let (c', e) := c.exceptionHandler .interfaceError
        (toPyStr "length of row doesn't match header")
      (.error e, c')

/-- The loop body of `Cursor.__store_result`: process the lines of a
block in order, dispatching on each line's prefix exactly as the
source's `elif` chain does; falling off the end of the block raises the
"Unknown state" error. -/
def Cursor.storeLines (block : PyStr) :
    Cursor → HdrVars → List PyStr → Except Err Unit × Cursor
  | c, _, [] =>
    let (c', e) := c.exceptionHandler .interfaceError
      (toPyStr "Unknown state, " ++ block)
    (.error e, c')
  | c, hv, line :: rest =>
    if MSG_INFO.isPrefixOf line then
      Cursor.storeLines block
        {c with messages := c.messages ++ [(.warningClass, line.drop 1)]} hv rest
    else if MSG_QTABLE.isPrefixOf line then
      match (pySplitWs (line.drop 2)).take 4 with
      | [q, rcount, cols, _tuples] =>
        let c1 := {c with query_id := .qstr q}
        match pyInt cols with
        | none => (.error (.runtimeFault (toPyStr "ValueError"), cols), c1)
        | some ncols =>
          match pyInt rcount with
          | none => (.error (.runtimeFault (toPyStr "ValueError"), rcount), c1)
          | some rc =>
            let nones : List PyScalar := List.replicate ncols.toNat .nil
            Cursor.storeLines block
              {c1 with rowcount := rc, rows := [], offset := 0, lastrowid := none}
              { column_name := .vlist nones
                type_ := .vlist nones
                display_size := .vlist nones
                internal_size := .vlist nones
                precision := .vlist nones
                scale := .vlist nones
                null_ok := .vlist nones } rest
      | _ => (.error (.runtimeFault (toPyStr "ValueError"), toPyStr "unpack"), c)
    else if MSG_HEADER.isPrefixOf line then
      match pySplitOn (toPyStr "#") (line.drop 1) with
      | [data, identity0] =>
        let values := (pySplitOn (toPyStr ",") data).map pyStrip
        let identity := pyStrip identity0
        match headerUpdate hv identity values with
        | .error kind => (.error (.runtimeFault kind, line), c)
        | .ok hv' =>
          match pyZipDesc [hv'.column_name, hv'.type_, hv'.display_size,
              hv'.internal_size, hv'.precision, hv'.scale, hv'.null_ok] with
          | none => (.error (.runtimeFault (toPyStr "TypeError"), toPyStr "zip"), c)
          | some desc =>
            Cursor.storeLines block
              {c with description := some desc, offset := 0, lastrowid := none}
              hv' rest
      | _ => (.error (.runtimeFault (toPyStr "ValueError"), toPyStr "unpack"), c)
    else if MSG_TUPLE.isPrefixOf line then
      match c.parseTuple line with
      | (.error e, c') => (.error e, c')
      | (.ok values, c') =>
        Cursor.storeLines block {c' with rows := c'.rows ++ [values]} hv rest
    else if MSG_TUPLE_NOSLICE.isPrefixOf line then
      Cursor.storeLines block
        {c with rows := c.rows ++ [[Value.vstr (line.drop 1)]]} hv rest
    else if MSG_QBLOCK.isPrefixOf line then
      Cursor.storeLines block {c with rows := []} hv rest
    else if MSG_QSCHEMA.isPrefixOf line then
      Cursor.storeLines block
        { c with
          offset := 0
          lastrowid := none
          rows := []
          description := none
          rowcount := -1 } hv rest
    else if MSG_QUPDATE.isPrefixOf line then
      match (pySplitWs (line.drop 2)).take 2 with
      | [affected, identity] =>
        let c1 := {c with offset := 0, rows := [], description := none}
        match pyInt affected with
        | none => (.error (.runtimeFault (toPyStr "ValueError"), affected), c1)
        | some a =>
          match pyInt identity with
          | none => (.error (.runtimeFault (toPyStr "ValueError"), identity),
              {c1 with rowcount := a})
          | some iid =>
            Cursor.storeLines block
              {c1 with rowcount := a, lastrowid := some iid, query_id := .qint (-1)}
              hv rest
      | _ => (.error (.runtimeFault (toPyStr "ValueError"), toPyStr "unpack"), c)
    else if MSG_QTRANS.isPrefixOf line then
      Cursor.storeLines block
        { c with
          offset := 0
          lastrowid := none
          rows := []
          description := none
          rowcount := -1 } hv rest
    else if line = MSG_PROMPT then
      (.ok (), c)
    else if MSG_ERROR.isPrefixOf line then
      let (c', e) := c.exceptionHandler .programmingError (line.drop 1)
      (.error e, c')
    else
      Cursor.storeLines block c hv rest

/-- `Cursor.__store_result`: split the raw block into lines and fold
them through the dispatch loop. -/
def Cursor.storeResult (c : Cursor) (block : PyStr) : Except Err Unit × Cursor :=
  Cursor.storeLines block c {} (pySplitOn (toPyStr "\n") block)

/-- `Cursor.close`: release the connection reference (and nothing
else). -/
def Cursor.close (c : Cursor) : Cursor :=
  {c with connection := none}

/-- `Connection.set_replysize` of the connection collaborator.
Modelled from the spec: the connection's default page size setting
(§6). -/
def Connection.set_replysize (conn : Connection) (n : Int) : Connection :=
  {conn with replysize := n}

/-- A data-tuple wire line for the given raw fields. -/
def tupleLine (fields : List PyStr) : PyStr :=
  '[' :: (pyJoin (toPyStr ",\t") fields ++ [']'])

/-- A column-header wire line `%<values>#<identity>`. -/
def headerLine (values : List PyStr) (identity : PyStr) : PyStr :=
  '%' :: (pyJoin (toPyStr ",") values ++ '#' :: identity)

/-- A result-set-opened wire line
`&1 <query id> <total rows> <columns> <rows in this page>`. -/
def qtableLine (qid : PyStr) (total cols page : Nat) : PyStr :=
  toPyStr "&1 " ++ qid ++ toPyStr " " ++ natToPyStr total ++ toPyStr " " ++
    natToPyStr cols ++ toPyStr " " ++ natToPyStr page

/-- A buffer-reset wire line. -/
def qblockLine : PyStr := toPyStr "&6 res"

/-- An update-completed wire line `&2 <affected> <generated id>`. -/
def updateLine (affected lastid : Nat) : PyStr :=
  toPyStr "&2 " ++ natToPyStr affected ++ toPyStr " " ++ natToPyStr lastid

/-- Assemble wire lines into one response block, terminated by the
end-of-response prompt (an empty final line). -/
def joinBlock (lines : List PyStr) : PyStr :=
  pyJoin (toPyStr "\n") (lines ++ [[]])

/-- The error block the modelled server answers with for a malformed
or mismatched page-fetch command. -/
def errorBlock : PyStr := joinBlock [toPyStr "!export error"]

/-- Modelled from the spec: the full response block for an executed
statement that opened a result set — the result-set header, the `name`
and `type` column headers, and the first page of data tuples (at most
`pagesize` rows), ending with the prompt (§4.1, §6). -/
def mkExecBlock (qid : PyStr) (names types : List PyStr)
    (table : List (List PyStr)) (pagesize : Int) : PyStr :=
  let page := sliceClip table 0 pagesize
  joinBlock (qtableLine qid table.length names.length page.length
    :: headerLine names (toPyStr "name") :: headerLine types (toPyStr "type")
    :: page.map tupleLine)

/-- A response block shaped like `mkExecBlock` but with the
terminating end-of-response prompt line missing (used to state the
missing-terminator property). -/
def mkExecBlockNoPrompt (qid : PyStr) (names types : List PyStr)
    (table : List (List PyStr)) (pagesize : Int) : PyStr :=
  let page := sliceClip table 0 pagesize
  pyJoin (toPyStr "\n") (qtableLine qid table.length names.length page.length
    :: headerLine names (toPyStr "name") :: headerLine types (toPyStr "type")
    :: page.map tupleLine)

/-- Modelled from the spec: the response block for a page-fetch
command — a buffer-reset line followed by the data tuples of the
requested sub-range `[off, off+amt)` of the logical result set (§4.4,
glossary "page fetch"). -/
def mkExportBlock (table : List (List PyStr)) (off amt : Int) : PyStr :=
  joinBlock (qblockLine :: (sliceClip table off (off + amt)).map tupleLine)

/-- Modelled from the spec: `connection.execute(statement) -> raw
response block` (§6).  The modelled connection answers with the block
for its configured reply; the statement text itself does not influence
the reply. -/
def Connection.execute (conn : Connection) (_query : PyStr) : PyStr × Connection :=
  match conn.reply with
  | .resultSet qid names types table =>
    (mkExecBlock qid names types table conn.replysize, conn)
  | .updated a i => (joinBlock [updateLine a i], conn)
  | .rawBlock b => (b, conn)

/-- Modelled from the spec: `connection.command(control) -> raw
response block` (§6).  A well-formed `Xexport <query id> <offset>
<count>` command naming the open result set is answered with the
corresponding page block; anything else gets an error block.  The
command is recorded in the connection's log. -/
def Connection.command (conn : Connection) (cmd : PyStr) : PyStr × Connection :=
  let conn' := {conn with log := conn.log ++ [cmd]}
  match conn.reply with
  | .resultSet qid _ _ table =>
    match pySplitWs cmd with
    | [x, i, o, a] =>
      if x = toPyStr "Xexport" ∧ i = qid then
        match pyInt o, pyInt a with
        | some off, some amt => (mkExportBlock table off amt, conn')
        | _, _ => (errorBlock, conn')
      else (errorBlock, conn')
    | _ => (errorBlock, conn')
  | _ => (errorBlock, conn')

/-- The `Xexport` page-fetch command string built by `nextset` and
`scroll`: `'Xexport %s %s %s' % (query_id, offset, amount)`. -/
def xexportCmd (q : QId) (off amt : Int) : PyStr :=
  toPyStr "Xexport " ++ q.render ++ toPyStr " " ++ intToPyStr off ++
    toPyStr " " ++ intToPyStr amt

/-- `Cursor.nextset`: skip to the next window of the result set by
issuing a page-fetch command at the current logical end of the buffer. -/
def Cursor.nextset (c : Cursor) : Except Err Bool × Cursor :=
  if ¬ executedTruthy c.executed then
    let (c', e) := c.exceptionHandler .programmingError (toPyStr "do a execute() first")
    (.error e, c')
  else if c.rownumber ≥ c.rowcount then (.ok false, c)
  else
    let c1 := {c with offset := c.offset + (c.rows.length : Int)}
    let end_ := min c1.rowcount (c1.rownumber + c1.arraysize)
    let amount := end_ - c1.offset
    let cmd := xexportCmd c1.query_id c1.offset amount
    match c1.connection with
    | none => (.error (.runtimeFault (toPyStr "AttributeError"), toPyStr "NoneType"), c1)
    | some conn =>
      let (block, conn') := conn.command cmd
      let c2 := {c1 with connection := some conn'}
      match c2.storeResult block with
      | (.error e, c') => (.error e, c')
      | (.ok _, c3) => (.ok true, c3)

/-- `Cursor.fetchone`: fetch the next row, or `none` when no more data
is available; pages in the next window through `nextset` when the row
cursor leaves the buffered window. -/
def Cursor.fetchone (c : Cursor) : Except Err (Option Row) × Cursor :=
  if ¬ executedTruthy c.executed then
    let (c', e) := c.exceptionHandler .programmingError (toPyStr "do a execute() first")
    (.error e, c')
  else if c.query_id = .qint (-1) then
    let (c', e) := c.exceptionHandler .programmingError
      (toPyStr "query didn't result in a resultset")
    (.error e, c')
  else if c.rownumber ≥ c.rowcount then (.ok none, c)
  else
    let step : Except Err Unit × Cursor :=
      if c.rownumber ≥ c.offset + (c.rows.length : Int) then
        match c.nextset with
        | (.error e, c') => (.error e, c')
        | (.ok _, c') => (.ok (), c')
      else (.ok (), c)
    match step with
    | (.error e, c') => (.error e, c')
    | (.ok _, c1) =>
      match pyGet c1.rows (c1.rownumber - c1.offset) with
      | none => (.error (.runtimeFault (toPyStr "IndexError"), toPyStr "list index"), c1)
      | some result => (.ok (some result), {c1 with rownumber := c1.rownumber + 1})

/-- The `while (end > self.rownumber) and self.nextset():` loop of
`fetchmany`, with a fuel bound on the number of iterations (the Python
loop can fail to terminate only on windows no well-formed server
produces; on reachable states `rowcount + 1` iterations always
suffice, see the fetch-many theorems). -/
def Cursor.fetchmanyLoop : Nat → Int → List Row → Cursor → Except Err (List Row) × Cursor
  | 0, _, _, c => (.error (.runtimeFault (toPyStr "NonTermination"), toPyStr "fetchmany"), c)
  | fuel + 1, end_, result, c =>
    if end_ > c.rownumber then
      match c.nextset with
      | (.error e, c') => (.error e, c')
      | (.ok false, c') => (.ok result, c')
      | (.ok true, c') =>
        let result' := result ++ pySlice c'.rows (c'.rownumber - c'.offset) (end_ - c'.offset)
        Cursor.fetchmanyLoop fuel end_ result'
          {c' with rownumber := min end_ ((c'.rows.length : Int) + c'.offset)}
    else (.ok result, c)

/-- `Cursor.fetchmany`: fetch the next `size` rows (the cursor's
`arraysize` when `size` is absent or `0`), paging as often as needed. -/
def Cursor.fetchmany (c : Cursor) (size : Option Int) : Except Err (List Row) × Cursor :=
  if ¬ executedTruthy c.executed then
    let (c', e) := c.exceptionHandler .programmingError (toPyStr "do a execute() first")
    (.error e, c')
  else if c.rownumber ≥ c.rowcount then (.ok [], c)
  else
    let sz := match size with
      | some n => if n ≠ 0 then n else c.arraysize
      | none => c.arraysize
    let end_ := min (c.rownumber + sz) c.rowcount
    let result := pySlice c.rows (c.rownumber - c.offset) (end_ - c.offset)
    let c1 := {c with rownumber := min end_ ((c.rows.length : Int) + c.offset)}
    Cursor.fetchmanyLoop (c1.rowcount.toNat + 1) end_ result c1

/-- The `while self.nextset():` loop of `fetchall`, with a fuel bound
(as for `fetchmanyLoop`). -/
def Cursor.fetchallLoop : Nat → List Row → Cursor → Except Err (List Row) × Cursor
  | 0, _, c => (.error (.runtimeFault (toPyStr "NonTermination"), toPyStr "fetchall"), c)
  | fuel + 1, result, c =>
    match c.nextset with
    | (.error e, c') => (.error e, c')
    | (.ok false, c') => (.ok result, c')
    | (.ok true, c') =>
      Cursor.fetchallLoop fuel (result ++ c'.rows)
        {c' with rownumber := (c'.rows.length : Int) + c'.offset}

/-- `Cursor.fetchall`: fetch all remaining rows of the result set. -/
def Cursor.fetchall (c : Cursor) : Except Err (List Row) × Cursor :=
  if ¬ executedTruthy c.executed then
    let (c', e) := c.exceptionHandler .programmingError (toPyStr "do a execute() first")
    (.error e, c')
  else if c.query_id = .qint (-1) then
    let (c', e) := c.exceptionHandler .programmingError
      (toPyStr "query didn't result in a resultset")
    (.error e, c')
  else
    let result := pySliceFrom c.rows (c.rownumber - c.offset)
    let c1 := {c with rownumber := (c.rows.length : Int) + c.offset}
    Cursor.fetchallLoop (c1.rowcount.toNat + 1) result c1

/-- `Cursor.scroll(value, mode)`: compute the target position, range
check it against `rowcount`, set `__offset` to it, and eagerly re-page
from the server. -/
def Cursor.scroll (c : Cursor) (value : Int) (mode : PyStr) : Except Err Unit × Cursor :=
  if ¬ executedTruthy c.executed then
    let (c', e) := c.exceptionHandler .programmingError (toPyStr "do a execute() first")
    (.error e, c')
  else if mode ≠ toPyStr "relative" ∧ mode ≠ toPyStr "absolute" then
    let (c', e) := c.exceptionHandler .programmingError
      (toPyStr "unknown mode '" ++ mode ++ toPyStr "'")
    (.error e, c')
  else
    let v := if mode = toPyStr "relative" then value + c.rownumber else value
    if v > c.rowcount then
      let (c', e) := c.exceptionHandler .indexErrorClass
        (toPyStr "value beyond length of resultset")
      (.error e, c')
    else
      let c1 := {c with offset := v}
      let end_ := min c1.rowcount (c1.rownumber + c1.arraysize)
      let amount := end_ - c1.offset
      let cmd := xexportCmd c1.query_id c1.offset amount
      match c1.connection with
      | none => (.error (.runtimeFault (toPyStr "AttributeError"), toPyStr "NoneType"), c1)
      | some conn =>
        let (block, conn') := conn.command cmd
        let c2 := {c1 with connection := some conn'}
        match c2.storeResult block with
        | (.error e, c') => (.error e, c')
        | (.ok _, c3) => (.ok (), c3)

/-- Modelled from the spec: parameter substitution for a mapping — the
external quoting utility (`monetize.convert`) and Python's `%`
formatting are out of scope (§1, §6), and the substituted text does not
influence the modelled server's reply, so the statement text is kept. -/
def substDict (operation : PyStr) (_items : List (PyStr × PyStr)) : PyStr := operation

/-- Modelled from the spec: parameter substitution for a sequence (see
`substDict`). -/
def substList (operation : PyStr) (_items : List PyStr) : PyStr := operation

/-- Modelled from the spec: parameter substitution for a single string
(see `substDict`). -/
def substStr (operation : PyStr) (_s : PyStr) : PyStr := operation

/-- `Cursor.execute(operation, parameters)`: fail fast when closed,
clear the message log, align the connection's reply size with
`arraysize`, substitute parameters, send the statement, store the
response, and reset the row cursor. -/
def Cursor.execute (c0 : Cursor) (operation : PyStr) (parameters : PyParams) :
    Except Err Int × Cursor :=
  match c0.connection with
  | none =>
    let (c', e) := c0.exceptionHandler .programmingError (toPyStr "cursor is closed")
    (.error e, c')
  | some conn0 =>
    let c1 := {c0 with messages := []}
    let conn1 := if c1.arraysize ≠ conn0.replysize
      then conn0.set_replysize c1.arraysize else conn0
    let c2 := {c1 with connection := some conn1, operation := operation}
    let qr : Except Err PyStr × Cursor :=
      if parameters.truthy then
        match parameters with
        | .dict items => (.ok (substDict operation items), c2)
        | .listP items => (.ok (substList operation items), c2)
        | .strP s3 => (.ok (substStr operation s3), c2)
        | .other tn =>
          let (c', e) := c2.exceptionHandler .valueErrorClass
            (toPyStr "Parameters should be None, dict or list, now it is " ++ tn)
          (.error e, c')
        | .noneP => (.ok operation, c2)
      else (.ok operation, c2)
    match qr with
    | (.error e, c') => (.error e, c')
    | (.ok query, c3) =>
      let (block, conn2) := conn1.execute query
      let c4 := {c3 with connection := some conn2}
      match c4.storeResult block with
      | (.error e, c') => (.error e, c')
      | (.ok _, c5) =>
        (.ok c5.rowcount, {c5 with rownumber := 0, executed := some operation})

/-- The loop of `Cursor.executemany`. -/
def Cursor.executemanyAux (operation : PyStr) :
    Cursor → List PyParams → Int → Except Err Int × Cursor
  | c, [], count => (.ok count, {c with rowcount := count})
  | c, p :: ps, count =>
    match c.execute operation p with
    | (.error e, c') => (.error e, c')
    | (.ok n, c') => Cursor.executemanyAux operation c' ps (count + n)

/-- `Cursor.executemany(operation, seq_of_parameters)`: one `execute`
per parameter set, summing the returned counts. -/
def Cursor.executemany (c : Cursor) (operation : PyStr) (seq : List PyParams) :
    Except Err Int × Cursor :=
  Cursor.executemanyAux operation c seq 0

/-- `Cursor.next` (iteration): `fetchone`, raising `StopIteration` on a
falsy row. -/
def Cursor.nextRow (c : Cursor) : Except Err Row × Cursor :=
  match c.fetchone with
  | (.error e, c') => (.error e, c')
  | (.ok r, c') =>
    match r with
    | none => (.error (.stopIterationClass, []), c')
    | some row =>
      if row = [] then (.error (.stopIterationClass, []), c') else (.ok row, c')

/-- Repeated `fetchone` calls: collect the results of `k` successive
calls (used to state the windowing-correctness property). -/
def Cursor.fetchN : Nat → Cursor → Except Err (List (Option Row)) × Cursor
  | 0, c => (.ok [], c)
  | k + 1, c =>
    match c.fetchone with
    | (.error e, c') => (.error e, c')
    | (.ok r, c') =>
      match Cursor.fetchN k c' with
      | (.error e, c'') => (.error e, c'')
      | (.ok rs, c'') => (.ok (r :: rs), c'')

/-!
## Well-formedness predicates and expected values
-/

/-- A string containing no Python whitespace. -/
abbrev wsFree (s : PyStr) : Prop := ∀ c ∈ s, pyIsSpace c = false

/-- The ten decimal digit characters. -/
def digitList : PyStr := toPyStr "0123456789"

/-- A well-formed query id on the wire: non-empty, free of whitespace
and newlines (so the page-fetch command round-trips through the
whitespace split). -/
abbrev goodQid (q : PyStr) : Prop := q ≠ [] ∧ wsFree q ∧ '\n' ∉ q

/-- A well-formed header value (column name or type name): free of the
delimiters of the header line and of whitespace. -/
abbrev goodHdrVal (s : PyStr) : Prop := '\n' ∉ s ∧ ',' ∉ s ∧ '#' ∉ s ∧ wsFree s

/-- A well-formed raw tuple field: free of the field separator's first
character and of newlines. -/
abbrev goodField (f : PyStr) : Prop := ',' ∉ f ∧ '\n' ∉ f

/-- Rows of the logical table all have the given arity and well-formed
fields. -/
abbrev goodTable (cols : Nat) (table : List (List PyStr)) : Prop :=
  ∀ r ∈ table, r.length = cols ∧ ∀ f ∈ r, goodField f

/-- The column description produced by a `name` header followed by a
`type` header after a result-set-opened line: per column the 7-tuple
`(name, type, None, None, None, None, None)`. -/
def mkDesc (names types : List PyStr) : List (List PyScalar) :=
  List.zipWith (fun n t => [.s n, .s t, .nil, .nil, .nil, .nil, .nil]) names types

/-- The row `__parse_tuple` produces from raw fields under a given
description. -/
def convRow (desc : List (List PyScalar)) (fields : List PyStr) : Row :=
  List.zipWith (fun f d => Value.conv (pyStrip f) (d.getD 1 .nil)) fields desc

/-- The row the cursor exposes for a raw table row, given the column
types: each field stripped and converted against its column type. -/
def parsedRow (types : List PyStr) (fields : List PyStr) : Row :=
  List.zipWith (fun f t => Value.conv (pyStrip f) (.s t)) fields types

/-- The window invariant: the cursor is positioned inside an executed
tabular result set whose logical table lives on the (modelled)
connection.  `L` is the length of the buffered window, which holds
rows `[offset, offset + L)` of the logical table. -/
def WinInv (qid : PyStr) (names types : List PyStr)
    (table : List (List PyStr)) (c : Cursor) : Prop :=
  ∃ (conn : Connection) (L : Nat),
    c.connection = some conn ∧
    conn.reply = .resultSet qid names types table ∧
    c.query_id = .qstr qid ∧
    c.rowcount = (table.length : Int) ∧
    1 ≤ c.arraysize ∧
    executedTruthy c.executed = true ∧
    c.description = some (mkDesc names types) ∧
    names.length = types.length ∧
    1 ≤ types.length ∧
    goodQid qid ∧
    goodTable types.length table ∧
    0 ≤ c.offset ∧
    c.offset ≤ c.rownumber ∧
    c.rownumber ≤ c.offset + (L : Int) ∧
    c.offset + (L : Int) ≤ (table.length : Int) ∧
    c.rows = ((table.drop c.offset.toNat).take L).map (parsedRow types)

/-!
## Concrete instances used by witnesses and counterexamples
-/

/-- A two-column, four-row logical table. -/
def exTable : List (List PyStr) :=
  [[toPyStr "1", toPyStr "a"], [toPyStr "2", toPyStr "b"],
   [toPyStr "3", toPyStr "c"], [toPyStr "4", toPyStr "d"]]

/-- Column names of the example table. -/
def exNames : List PyStr := [toPyStr "x", toPyStr "y"]

/-- Column types of the example table. -/
def exTypes : List PyStr := [toPyStr "int", toPyStr "varchar"]

/-- A connection configured with the example result set and page size
`2`. -/
def exConn : Connection :=
  { replysize := 2
    reply := .resultSet (toPyStr "7") exNames exTypes exTable
    log := [] }

/-- The cursor state right after executing a statement against
`exConn`. -/
def exCursor : Cursor :=
  ((Cursor.init exConn).execute (toPyStr "select value from tbl") .noneP).2

/-- A one-column, four-row logical table. -/
def ex1Table : List (List PyStr) :=
  [[toPyStr "r0"], [toPyStr "r1"], [toPyStr "r2"], [toPyStr "r3"]]

/-- A connection with the one-column table and page size `3` (chosen so
that `scroll(1, 'absolute')` misaligns the buffer against the unchanged
`rownumber`). -/
def ex1Conn : Connection :=
  { replysize := 3
    reply := .resultSet (toPyStr "9") [toPyStr "x"] [toPyStr "int"] ex1Table
    log := [] }

/-- The cursor state right after executing a statement against
`ex1Conn`. -/
def ex1Cursor : Cursor :=
  ((Cursor.init ex1Conn).execute (toPyStr "select x from t1") .noneP).2

/-- A connection whose statement reply is an update that affected no
rows. -/
def updConn : Connection :=
  { replysize := 100
    reply := .updated 0 0
    log := [] }

/-- The cursor state right after executing the update statement. -/
def updCursor : Cursor :=
  ((Cursor.init updConn).execute (toPyStr "update t set v = 0") .noneP).2

/-- A connection whose statement reply is an update that affected `42`
rows. -/
def upd42Conn : Connection :=
  { replysize := 100
    reply := .updated 42 0
    log := [] }

/-- The cursor state right after executing the `42`-row update
statement: `rowcount = 42` with the row position at `0`, but
`query_id` cleared to `-1`. -/
def upd42Cursor : Cursor :=
  ((Cursor.init upd42Conn).execute (toPyStr "update t set v = 0") .noneP).2

/-- A line whose prefix matches none of the recognized event kinds and
which is not the end-of-response prompt: the final `else` of the
dispatch chain in `__store_result`. -/
abbrev unrecognizedLine (line : PyStr) : Prop :=
  MSG_INFO.isPrefixOf line = false ∧ MSG_QTABLE.isPrefixOf line = false ∧
  MSG_HEADER.isPrefixOf line = false ∧ MSG_TUPLE.isPrefixOf line = false ∧
  MSG_TUPLE_NOSLICE.isPrefixOf line = false ∧ MSG_QBLOCK.isPrefixOf line = false ∧
  MSG_QSCHEMA.isPrefixOf line = false ∧ MSG_QUPDATE.isPrefixOf line = false ∧
  MSG_QTRANS.isPrefixOf line = false ∧ line ≠ MSG_PROMPT ∧
  MSG_ERROR.isPrefixOf line = false

/-- The exception classes the cursor raises deliberately through
`__exception_handler` (usage errors, protocol decode errors, and
server-reported errors), as opposed to runtime faults and the
iteration-protocol `StopIteration`. -/
def isHandled : ExcClass → Bool
  | .programmingError => true
  | .interfaceError => true
  | .valueErrorClass => true
  | .indexErrorClass => true
  | _ => false

/-- The sequence of results `R` successive `fetchone` calls should
produce on a result set decoded from `table`: each logical row in
order, converted against the column types. -/
def expectedRows (types : List PyStr) (table : List (List PyStr)) : List (Option Row) :=
  table.map (fun r => some (parsedRow types r))

/-!
## String-layer lemmas
-/

/-- `dropWhile` is the identity when the first element already fails
the predicate (and on `[]`). -/
theorem dropWhile_all_false {p : Char → Bool} {s : PyStr}
    (h : ∀ c ∈ s, p c = false) : s.dropWhile p = s := by
  cases s with
  | nil => rfl
  | cons a l => simp [List.dropWhile_cons, h a (List.mem_cons_self a l)]

/-- Stripping a whitespace-free string is the identity. -/
theorem pyStrip_eq_self {s : PyStr} (h : wsFree s) : pyStrip s = s := by
  unfold pyStrip
  rw [dropWhile_all_false h, dropWhile_all_false, List.reverse_reverse]
  intro c hc
  exact h c (List.mem_reverse.mp hc)

/-- `takeWhile` over an append whose left part all satisfies `p` and
whose right part starts with a failure. -/
theorem takeWhile_append_all {p : Char → Bool} {x : PyStr} {y : Char} {r : PyStr}
    (hx : ∀ a ∈ x, p a = true) (hy : p y = false) :
    (x ++ y :: r).takeWhile p = x := by
  induction x with
  | nil => simp [List.takeWhile_cons, hy]
  | cons a l ih =>
    have ha := hx a (List.mem_cons_self a l)
    simp only [List.cons_append, List.takeWhile_cons, ha]
    simp only [if_true]
    rw [ih (fun b hb => hx b (List.mem_cons_of_mem a hb))]

/-- `dropWhile` over an append whose left part all satisfies `p` and
whose right part starts with a failure. -/
theorem dropWhile_append_all {p : Char → Bool} {x : PyStr} {y : Char} {r : PyStr}
    (hx : ∀ a ∈ x, p a = true) (hy : p y = false) :
    (x ++ y :: r).dropWhile p = y :: r := by
  induction x with
  | nil => simp [List.dropWhile_cons, hy]
  | cons a l ih =>
    have ha := hx a (List.mem_cons_self a l)
    simp only [List.cons_append, List.dropWhile_cons, ha]
    simp only [if_true]
    exact ih (fun b hb => hx b (List.mem_cons_of_mem a hb))

/-- The result of `pySplitOnF` does not depend on the fuel as long as
the fuel exceeds the string length. -/
theorem pySplitOnF_congr (sep : PyStr) :
    ∀ (f1 : Nat), ∀ {s : PyStr}, ∀ (f2 : Nat),
      s.length < f1 → s.length < f2 →
      pySplitOnF sep f1 s = pySplitOnF sep f2 s := by
  intro f1
  induction f1 with
  | zero => intro s f2 h1 _; omega
  | succ f ih =>
    intro s f2 h1 h2
    cases s with
    | nil =>
      cases f2 with
      | zero => omega
      | succ g => rfl
    | cons c rest =>
      cases f2 with
      | zero => omega
      | succ g =>
        simp only [List.length_cons] at h1 h2
        simp only [pySplitOnF]
        by_cases hc : sep ≠ [] ∧ sep.isPrefixOf (c :: rest)
        · rw [if_pos hc, if_pos hc]
          have hsl : 1 ≤ sep.length := by
            cases hsep : sep with
            | nil => exact absurd hsep hc.1
            | cons a as => simp
          have hlen : ((c :: rest).drop sep.length).length ≤ rest.length := by
            simp only [List.length_drop, List.length_cons]
            omega
          rw [ih g (by omega) (by omega)]
        · rw [if_neg hc, if_neg hc]
          rw [ih g (by omega) (by omega)]

/-- Splitting a string free of the separator's first character yields
the string itself. -/
theorem pySplitOnF_nosep {sep : PyStr} {ch : Char} (hsep : sep.head? = some ch) :
    ∀ (fuel : Nat) {s : PyStr}, s.length < fuel → ch ∉ s →
      pySplitOnF sep fuel s = [s] := by
  intro fuel
  induction fuel with
  | zero => intro s h _; omega
  | succ f ih =>
    intro s hlen hch
    cases s with
    | nil => rfl
    | cons c rest =>
      obtain ⟨sep', rfl⟩ : ∃ t, sep = ch :: t := by
        cases sep with
        | nil => simp at hsep
        | cons a as => simp at hsep; exact ⟨as, by rw [hsep]⟩
      have hne : c ≠ ch := by
        intro h; exact hch (h ▸ List.mem_cons_self c rest)
      have hpre : ((ch :: sep').isPrefixOf (c :: rest)) = false := by
        simp only [List.isPrefixOf]
        have : (ch == c) = false := by
          simp [beq_iff_eq]; exact fun h => hne h.symm
        simp [this]
      simp only [pySplitOnF]
      rw [if_neg (by simp [hpre])]
      rw [ih (by simp at hlen ⊢; omega)
        (fun h => hch (List.mem_cons_of_mem c h))]

/-- Splitting `t ++ sep ++ r` where `t` is free of the separator's
first character: peel off `t`. -/
theorem pySplitOnF_step {sep : PyStr} {ch : Char} (hsep : sep.head? = some ch) :
    ∀ (t : PyStr) (fuel : Nat) {r : PyStr},
      (t ++ sep ++ r).length < fuel → ch ∉ t →
      pySplitOnF sep fuel (t ++ sep ++ r) = t :: pySplitOn sep r := by
  intro t
  induction t with
  | nil =>
    intro fuel r hlen _
    cases fuel with
    | zero => omega
    | succ f =>
      have hne : sep ≠ [] := by
        intro h; rw [h] at hsep; simp at hsep
      obtain ⟨c0, sep', rfl⟩ : ∃ a t, sep = a :: t := by
        cases sep with
        | nil => exact absurd rfl hne
        | cons a as => exact ⟨a, as, rfl⟩
      simp only [List.nil_append] at hlen ⊢
      show pySplitOnF (c0 :: sep') (f + 1) (c0 :: (sep' ++ r)) = _
      simp only [pySplitOnF]
      rw [if_pos]
      · show ([] : PyStr) :: pySplitOnF (c0 :: sep') f
          (((c0 :: sep') ++ r).drop (c0 :: sep').length) = _
        rw [List.drop_left]
        have hfr : pySplitOnF (c0 :: sep') f r = pySplitOn (c0 :: sep') r := by
          apply pySplitOnF_congr
          · simp only [List.length_append, List.length_cons] at hlen; omega
          · omega
        rw [hfr]
      · exact ⟨by simp, by rw [List.isPrefixOf_iff_prefix]; exact ⟨r, rfl⟩⟩
  | cons x t' ih =>
    intro fuel r hlen hch
    cases fuel with
    | zero => omega
    | succ f =>
      have hne : x ≠ ch := by
        intro h; exact hch (h ▸ List.mem_cons_self x t')
      obtain ⟨sep', hsepeq⟩ : ∃ u, sep = ch :: u := by
        cases sep with
        | nil => simp at hsep
        | cons a as => simp at hsep; exact ⟨as, by rw [hsep]⟩
      have hpre : ¬(sep ≠ [] ∧ sep.isPrefixOf (x :: (t' ++ sep ++ r)) = true) := by
        rintro ⟨-, hp⟩
        rw [hsepeq] at hp
        simp only [List.isPrefixOf, Bool.and_eq_true, beq_iff_eq] at hp
        exact hne hp.1.symm
      show pySplitOnF sep (f + 1) (x :: (t' ++ sep ++ r)) = _
      simp only [pySplitOnF]
      rw [if_neg hpre]
      have hb : (t' ++ sep ++ r).length < f := by
        simp only [List.cons_append, List.length_cons, List.length_append] at hlen
        simp only [List.length_append]
        omega
      rw [ih f hb (fun h => hch (List.mem_cons_of_mem x h))]

/-- Splitting the join of pieces free of the separator's first
character recovers the pieces. -/
theorem pySplitOn_join {sep : PyStr} {ch : Char} (hsep : sep.head? = some ch) :
    ∀ (pieces : List PyStr), pieces ≠ [] → (∀ p ∈ pieces, ch ∉ p) →
      pySplitOn sep (pyJoin sep pieces) = pieces := by
  intro pieces
  induction pieces with
  | nil => intro h; exact absurd rfl h
  | cons x xs ih =>
    intro _ hfree
    cases xs with
    | nil =>
      show pySplitOn sep x = [x]
      exact pySplitOnF_nosep hsep _ (Nat.lt_succ_self _)
        (hfree x (List.mem_cons_self x []))
    | cons y ys =>
      show pySplitOn sep (x ++ sep ++ pyJoin sep (y :: ys)) = x :: (y :: ys)
      unfold pySplitOn
      rw [pySplitOnF_step hsep x _ (Nat.lt_succ_self _)
        (hfree x (List.mem_cons_self x _))]
      rw [ih (by simp) (fun p hp => hfree p (List.mem_cons_of_mem x hp))]

/-- `takeWhile` over a list all of whose elements satisfy `p`. -/
theorem takeWhile_all {p : Char → Bool} {l : PyStr}
    (h : ∀ a ∈ l, p a = true) : l.takeWhile p = l := by
  induction l with
  | nil => rfl
  | cons a t ih =>
    simp only [List.takeWhile_cons, h a (List.mem_cons_self a t), if_true]
    rw [ih (fun b hb => h b (List.mem_cons_of_mem a hb))]

/-- `dropWhile` over a list all of whose elements satisfy `p`. -/
theorem dropWhile_all {p : Char → Bool} {l : PyStr}
    (h : ∀ a ∈ l, p a = true) : l.dropWhile p = [] := by
  induction l with
  | nil => rfl
  | cons a t ih =>
    simp only [List.dropWhile_cons, h a (List.mem_cons_self a t), if_true]
    exact ih (fun b hb => h b (List.mem_cons_of_mem a hb))

/-- `dropWhile` never lengthens a list. -/
theorem dropWhile_length_le (p : Char → Bool) (l : PyStr) :
    (l.dropWhile p).length ≤ l.length := by
  induction l with
  | nil => exact Nat.le_refl _
  | cons a t ih =>
    cases h : p a
    · simp [List.dropWhile_cons, h]
    · simp only [List.dropWhile_cons, h, if_true, List.length_cons]
      omega

/-- The result of `pySplitWsF` does not depend on the fuel as long as
the fuel exceeds the string length. -/
theorem pySplitWsF_congr :
    ∀ (f1 : Nat), ∀ {s : PyStr}, ∀ (f2 : Nat),
      s.length < f1 → s.length < f2 →
      pySplitWsF f1 s = pySplitWsF f2 s := by
  intro f1
  induction f1 with
  | zero => intro s f2 h1 _; omega
  | succ f ih =>
    intro s f2 h1 h2
    cases s with
    | nil =>
      cases f2 with
      | zero => omega
      | succ g => rfl
    | cons c rest =>
      cases f2 with
      | zero => omega
      | succ g =>
        simp only [List.length_cons] at h1 h2
        simp only [pySplitWsF]
        by_cases hc : pyIsSpace c = true
        · rw [if_pos hc, if_pos hc, ih g (by omega) (by omega)]
        · rw [if_neg hc, if_neg hc]
          have hc' : (!(pyIsSpace c)) = true := by
            simp [Bool.not_eq_true', Bool.of_not_eq_true hc]
          have hdw : (c :: rest).dropWhile (fun x => !(pyIsSpace x)) =
              rest.dropWhile (fun x => !(pyIsSpace x)) := by
            simp [List.dropWhile_cons, hc']
          rw [hdw]
          have hlen := dropWhile_length_le (fun x => !(pyIsSpace x)) rest
          rw [ih g (by omega) (by omega)]

/-- Splitting on whitespace skips a leading space. -/
theorem pySplitWs_cons_space (s : PyStr) : pySplitWs (' ' :: s) = pySplitWs s := by
  show pySplitWsF (s.length + 1 + 1) (' ' :: s) = _
  simp only [pySplitWsF]
  rw [if_pos (by decide)]
  exact pySplitWsF_congr _ _ (Nat.lt_succ_self _) (Nat.lt_succ_self _)

/-- Splitting the space-join of non-empty whitespace-free tokens on
whitespace recovers the tokens (fuelled version). -/
theorem pySplitWsF_join :
    ∀ (toks : List PyStr) (fuel : Nat),
      (pyJoin [' '] toks).length < fuel → toks ≠ [] →
      (∀ t ∈ toks, t ≠ [] ∧ wsFree t) →
      pySplitWsF fuel (pyJoin [' '] toks) = toks := by
  intro toks
  induction toks with
  | nil => intro fuel _ h; exact absurd rfl h
  | cons x xs ih =>
    intro fuel hfuel _ hgood
    obtain ⟨hxne, hxws⟩ := hgood x (List.mem_cons_self x xs)
    obtain ⟨c, cs, rfl⟩ : ∃ c cs, x = c :: cs := by
      cases x with
      | nil => exact absurd rfl hxne
      | cons c cs => exact ⟨c, cs, rfl⟩
    have hcsp : pyIsSpace c = false := hxws c (List.mem_cons_self c cs)
    have hall : ∀ a ∈ c :: cs, (!(pyIsSpace a)) = true := by
      intro a ha
      simp [Bool.not_eq_true', hxws a ha]
    cases xs with
    | nil =>
      show pySplitWsF fuel (c :: cs) = [c :: cs]
      cases fuel with
      | zero => simp at hfuel
      | succ f =>
        simp only [pySplitWsF]
        rw [if_neg (by simp [hcsp])]
        rw [takeWhile_all hall, dropWhile_all hall]
        cases f with
        | zero => rfl
        | succ g => rfl
    | cons y ys =>
      have hjoin : pyJoin [' '] ((c :: cs) :: y :: ys) =
          c :: (cs ++ ' ' :: pyJoin [' '] (y :: ys)) := by
        show ((c :: cs) ++ [' ']) ++ pyJoin [' '] (y :: ys) = _
        simp [List.append_assoc]
      rw [hjoin] at hfuel ⊢
      cases fuel with
      | zero => simp at hfuel
      | succ f =>
        have hspf : pyIsSpace ' ' = true := by decide
        simp only [pySplitWsF]
        rw [if_neg (by simp [hcsp])]
        have htw : (c :: (cs ++ ' ' :: pyJoin [' '] (y :: ys))).takeWhile
            (fun x => !(pyIsSpace x)) = c :: cs := by
          have := takeWhile_append_all (p := fun x => !(pyIsSpace x))
            (x := c :: cs) (y := ' ') (r := pyJoin [' '] (y :: ys)) hall
            (by simp [hspf])
          simpa using this
        have hdw : (c :: (cs ++ ' ' :: pyJoin [' '] (y :: ys))).dropWhile
            (fun x => !(pyIsSpace x)) = ' ' :: pyJoin [' '] (y :: ys) := by
          have := dropWhile_append_all (p := fun x => !(pyIsSpace x))
            (x := c :: cs) (y := ' ') (r := pyJoin [' '] (y :: ys)) hall
            (by simp [hspf])
          simpa using this
        rw [htw, hdw]
        cases f with
        | zero =>
          exfalso
          simp only [List.cons_append, List.length_cons] at hfuel
          omega
        | succ g =>
          show _ :: pySplitWsF (g + 1) (' ' :: pyJoin [' '] (y :: ys)) = _
          simp only [pySplitWsF]
          rw [if_pos hspf]
          have hglen : (pyJoin [' '] (y :: ys)).length < g := by
            simp only [List.length_cons, List.length_append] at hfuel
            omega
          rw [pySplitWsF_congr _ ((pyJoin [' '] (y :: ys)).length + 1) hglen
            (Nat.lt_succ_self _)]
          rw [ih _ (Nat.lt_succ_self _) (by simp)
            (fun t ht => hgood t (List.mem_cons_of_mem (c :: cs) ht))]

/-- Splitting the space-join of non-empty whitespace-free tokens on
whitespace recovers the tokens. -/
theorem pySplitWs_join {toks : List PyStr} (hne : toks ≠ [])
    (hgood : ∀ t ∈ toks, t ≠ [] ∧ wsFree t) :
    pySplitWs (pyJoin [' '] toks) = toks :=
  pySplitWsF_join toks _ (Nat.lt_succ_self _) hne hgood

/-!
## Decimal rendering and parsing round trips
-/

/-- Rendering a digit yields a digit character. -/
theorem digitChar_mem : ∀ d, d < 10 → digitChar d ∈ digitList := by decide

/-- Digit characters are not special: not whitespace, not newlines,
not signs, not delimiters. -/
theorem digit_not_special : ∀ c ∈ digitList,
    pyIsSpace c = false ∧ c ≠ '\n' ∧ c ≠ '-' ∧ c ≠ '+' ∧ c ≠ ',' ∧ c ≠ '#' := by
  decide

/-- `charDigit?` inverts `digitChar` on digits. -/
theorem charDigit?_digitChar : ∀ d, d < 10 → charDigit? (digitChar d) = some d := by
  decide

/-- Reading an append: read the left part first. -/
theorem pyDigitsGo_append {l1 : PyStr} {acc m : Nat} (l2 : PyStr)
    (h : pyDigitsGo acc l1 = some m) :
    pyDigitsGo acc (l1 ++ l2) = pyDigitsGo m l2 := by
  induction l1 generalizing acc with
  | nil => simp only [pyDigitsGo] at h; cases h; rfl
  | cons c cs ih =>
    cases hc : charDigit? c with
    | none =>
      simp only [pyDigitsGo, hc] at h
      exact absurd h (by simp)
    | some d =>
      simp only [pyDigitsGo, hc, List.cons_append] at h ⊢
      exact ih h

/-- The rendered digits of `n` are all digit characters, the rendering
is non-empty, and reading it back with any accumulator yields
`acc * 10 ^ length + n`. -/
theorem natDigAux_spec :
    ∀ (fuel n : Nat), n < fuel →
      (natDigAux fuel n ≠ [] ∧ (∀ c ∈ natDigAux fuel n, c ∈ digitList) ∧
        ∀ acc, pyDigitsGo acc (natDigAux fuel n) =
          some (acc * 10 ^ (natDigAux fuel n).length + n)) := by
  intro fuel
  induction fuel with
  | zero => intro n h; omega
  | succ f ih =>
    intro n hn
    by_cases h10 : n < 10
    · have heq : natDigAux (f + 1) n = [digitChar n] := by
        simp [natDigAux, h10]
      refine heq ▸ ⟨by simp, ?_, ?_⟩
      · intro c hc
        simp only [List.mem_singleton] at hc
        exact hc ▸ digitChar_mem n h10
      · intro acc
        simp [pyDigitsGo, charDigit?_digitChar n h10]
    · have heq : natDigAux (f + 1) n =
          natDigAux f (n / 10) ++ [digitChar (n % 10)] := by
        simp [natDigAux, h10]
      have hdiv : n / 10 < f := by omega
      obtain ⟨hne, hmem, hread⟩ := ih (n / 10) hdiv
      refine heq ▸ ⟨by simp, ?_, ?_⟩
      · intro c hc
        rcases List.mem_append.mp hc with h | h
        · exact hmem c h
        · simp only [List.mem_singleton] at h
          exact h ▸ digitChar_mem (n % 10) (by omega)
      · intro acc
        rw [pyDigitsGo_append _ (hread acc)]
        simp only [pyDigitsGo, charDigit?_digitChar (n % 10) (by omega),
          List.length_append, List.length_singleton]
        congr 1
        have hre : (acc * 10 ^ (natDigAux f (n / 10)).length + n / 10) * 10 + n % 10 =
            acc * (10 ^ (natDigAux f (n / 10)).length * 10) + (n / 10 * 10 + n % 10) := by
          ring
        rw [hre, Nat.pow_succ]
        congr 1
        omega

/-- The decimal rendering of a natural number is non-empty. -/
theorem natToPyStr_ne_nil (n : Nat) : natToPyStr n ≠ [] :=
  (natDigAux_spec (n + 1) n (Nat.lt_succ_self n)).1

/-- The decimal rendering of a natural number consists of digit
characters. -/
theorem natToPyStr_mem {n : Nat} : ∀ c ∈ natToPyStr n, c ∈ digitList :=
  (natDigAux_spec (n + 1) n (Nat.lt_succ_self n)).2.1

/-- The decimal rendering of a natural number is whitespace-free. -/
theorem natToPyStr_wsFree (n : Nat) : wsFree (natToPyStr n) :=
  fun c hc => (digit_not_special c (natToPyStr_mem c hc)).1

/-- The decimal rendering of a natural number contains no newline. -/
theorem natToPyStr_no_nl (n : Nat) : '\n' ∉ natToPyStr n := by
  intro h
  exact (digit_not_special _ (natToPyStr_mem _ h)).2.1 rfl

/-- Reading back the decimal rendering of a natural number. -/
theorem pyDigits?_natToPyStr (n : Nat) : pyDigits? (natToPyStr n) = some n := by
  obtain ⟨hne, -, hread⟩ := natDigAux_spec (n + 1) n (Nat.lt_succ_self n)
  have hread0 : pyDigitsGo 0 (natToPyStr n) = some n := by
    have := hread 0
    simpa [natToPyStr] using this
  cases heq : natToPyStr n with
  | nil => exact absurd heq (natToPyStr_ne_nil n)
  | cons c cs =>
    rw [heq] at hread0
    show pyDigitsGo 0 (c :: cs) = some n
    exact hread0

/-- `int(str(n)) = n` for natural `n`. -/
theorem pyInt_natToPyStr (n : Nat) : pyInt (natToPyStr n) = some (n : Int) := by
  cases heq : natToPyStr n with
  | nil => exact absurd heq (natToPyStr_ne_nil n)
  | cons c cs =>
    have hc : c ∈ digitList := natToPyStr_mem c (heq ▸ List.mem_cons_self c cs)
    obtain ⟨-, -, hm, hp, -, -⟩ := digit_not_special c hc
    have hws : wsFree (c :: cs) := heq ▸ natToPyStr_wsFree n
    have hdig : pyDigits? (c :: cs) = some n := heq ▸ pyDigits?_natToPyStr n
    unfold pyInt
    rw [pyStrip_eq_self hws]
    change (if c = '-' then (pyDigits? cs).map (fun n => -(Int.ofNat n))
      else if c = '+' then (pyDigits? cs).map (fun n => Int.ofNat n)
      else (pyDigits? (c :: cs)).map (fun n => Int.ofNat n)) = some (n : Int)
    rw [if_neg hm, if_neg hp, hdig]
    rfl

/-- The decimal rendering of an integer is whitespace-free. -/
theorem intToPyStr_wsFree (i : Int) : wsFree (intToPyStr i) := by
  unfold intToPyStr
  by_cases h : i < 0
  · rw [if_pos h]
    intro c hc
    rcases List.mem_cons.mp hc with rfl | hc
    · decide
    · exact natToPyStr_wsFree _ c hc
  · rw [if_neg h]
    exact natToPyStr_wsFree _

/-- The decimal rendering of an integer is non-empty. -/
theorem intToPyStr_ne_nil (i : Int) : intToPyStr i ≠ [] := by
  unfold intToPyStr
  by_cases h : i < 0
  · rw [if_pos h]; simp
  · rw [if_neg h]; exact natToPyStr_ne_nil _

/-- The decimal rendering of an integer contains no newline. -/
theorem intToPyStr_no_nl (i : Int) : '\n' ∉ intToPyStr i := by
  unfold intToPyStr
  by_cases h : i < 0
  · rw [if_pos h]
    intro hc
    rcases List.mem_cons.mp hc with hh | hc
    · exact absurd hh (by decide)
    · exact natToPyStr_no_nl _ hc
  · rw [if_neg h]; exact natToPyStr_no_nl _

/-- `int('-' + str(m)) = -m`. -/
theorem pyInt_minus_nat (m : Nat) : pyInt ('-' :: natToPyStr m) = some (-(m : Int)) := by
  have hws : wsFree ('-' :: natToPyStr m) := by
    intro c hc
    rcases List.mem_cons.mp hc with rfl | hc
    · decide
    · exact natToPyStr_wsFree m c hc
  unfold pyInt
  rw [pyStrip_eq_self hws]
  change (if ('-' : Char) = '-' then (pyDigits? (natToPyStr m)).map (fun n => -(Int.ofNat n))
    else if ('-' : Char) = '+' then (pyDigits? (natToPyStr m)).map (fun n => Int.ofNat n)
    else (pyDigits? ('-' :: natToPyStr m)).map (fun n => Int.ofNat n)) = some (-(m : Int))
  rw [if_pos rfl, pyDigits?_natToPyStr]
  rfl

/-- `int(str(i)) = i` for integers. -/
theorem pyInt_intToPyStr (i : Int) : pyInt (intToPyStr i) = some i := by
  by_cases h : i < 0
  · have heq : intToPyStr i = '-' :: natToPyStr i.natAbs := by
      unfold intToPyStr; rw [if_pos h]
    rw [heq, pyInt_minus_nat]
    simp only [Option.some.injEq]
    omega
  · have heq : intToPyStr i = natToPyStr i.toNat := by
      unfold intToPyStr; rw [if_neg h]
    rw [heq, pyInt_natToPyStr]
    simp only [Option.some.injEq]
    omega

/-!
## Decoder dispatch lemmas

One lemma per protocol line kind, reducing `Cursor.storeLines` on a
line of that shape to its branch.
-/

/-- The empty prefix is a prefix of everything. -/
theorem nil_isPrefixOf (l : List Char) : ([] : List Char).isPrefixOf l = true := by
  cases l <;> rfl

/-- The info prefix matches a `#` line. -/
theorem info_prefix (tail : PyStr) : MSG_INFO.isPrefixOf ('#' :: tail) = true := by
  show (('#' == '#') && ([] : PyStr).isPrefixOf tail) = true
  rw [nil_isPrefixOf]
  rfl

/-- The result-set prefix matches a `&1` line. -/
theorem qtable_prefix (tail : PyStr) : MSG_QTABLE.isPrefixOf ('&' :: '1' :: tail) = true := by
  show (('&' == '&') && (('1' == '1') && ([] : PyStr).isPrefixOf tail)) = true
  rw [nil_isPrefixOf]
  rfl

/-- The header prefix matches a `%` line. -/
theorem header_prefix (tail : PyStr) : MSG_HEADER.isPrefixOf ('%' :: tail) = true := by
  show (('%' == '%') && ([] : PyStr).isPrefixOf tail) = true
  rw [nil_isPrefixOf]
  rfl

/-- The tuple prefix matches a `[` line. -/
theorem tuple_prefix (tail : PyStr) : MSG_TUPLE.isPrefixOf ('[' :: tail) = true := by
  show (('[' == '[') && ([] : PyStr).isPrefixOf tail) = true
  rw [nil_isPrefixOf]
  rfl

/-- The no-slice tuple prefix matches a `=` line. -/
theorem noslice_prefix (tail : PyStr) : MSG_TUPLE_NOSLICE.isPrefixOf ('=' :: tail) = true := by
  show (('=' == '=') && ([] : PyStr).isPrefixOf tail) = true
  rw [nil_isPrefixOf]
  rfl

/-- The buffer-reset prefix matches a `&6` line. -/
theorem qblock_prefix (tail : PyStr) : MSG_QBLOCK.isPrefixOf ('&' :: '6' :: tail) = true := by
  show (('&' == '&') && (('6' == '6') && ([] : PyStr).isPrefixOf tail)) = true
  rw [nil_isPrefixOf]
  rfl

/-- The update prefix matches a `&2` line. -/
theorem qupdate_prefix (tail : PyStr) : MSG_QUPDATE.isPrefixOf ('&' :: '2' :: tail) = true := by
  show (('&' == '&') && (('2' == '2') && ([] : PyStr).isPrefixOf tail)) = true
  rw [nil_isPrefixOf]
  rfl

/-- The error prefix matches a `!` line. -/
theorem error_prefix (tail : PyStr) : MSG_ERROR.isPrefixOf ('!' :: tail) = true := by
  show (('!' == '!') && ([] : PyStr).isPrefixOf tail) = true
  rw [nil_isPrefixOf]
  rfl

/-- Falling off the end of the block raises the unknown-state error
and logs it. -/
theorem storeLines_nil (block : PyStr) (c : Cursor) (hv : HdrVars) :
    Cursor.storeLines block c hv [] =
      (.error (.interfaceError, toPyStr "Unknown state, " ++ block),
        {c with messages := c.messages ++
          [(.interfaceError, toPyStr "Unknown state, " ++ block)]}) := rfl

/-- The prompt (empty line) ends decoding successfully. -/
theorem storeLines_prompt (block : PyStr) (c : Cursor) (hv : HdrVars)
    (rest : List PyStr) :
    Cursor.storeLines block c hv ([] :: rest) = (.ok (), c) := rfl

/-- An info line appends a warning to the message log and continues. -/
theorem storeLines_info (block : PyStr) (c : Cursor) (hv : HdrVars)
    (tail : PyStr) (rest : List PyStr) :
    Cursor.storeLines block c hv (('#' :: tail) :: rest) =
      Cursor.storeLines block
        {c with messages := c.messages ++ [(.warningClass, tail)]} hv rest := by
  rw [Cursor.storeLines.eq_2]
  simp only [ info_prefix, if_true, List.drop_succ_cons, List.drop_zero]

/-- An error line raises a `ProgrammingError` carrying the line's text
and logs it. -/
theorem storeLines_error (block : PyStr) (c : Cursor) (hv : HdrVars)
    (tail : PyStr) (rest : List PyStr) :
    Cursor.storeLines block c hv (('!' :: tail) :: rest) =
      (.error (.programmingError, tail),
        {c with messages := c.messages ++ [(.programmingError, tail)]}) := by
  rw [Cursor.storeLines.eq_2]
  simp only [show MSG_INFO.isPrefixOf ('!' :: tail) = false from rfl,
    show MSG_QTABLE.isPrefixOf ('!' :: tail) = false from rfl,
    show MSG_HEADER.isPrefixOf ('!' :: tail) = false from rfl,
    show MSG_TUPLE.isPrefixOf ('!' :: tail) = false from rfl,
    show MSG_TUPLE_NOSLICE.isPrefixOf ('!' :: tail) = false from rfl,
    show MSG_QBLOCK.isPrefixOf ('!' :: tail) = false from rfl,
    show MSG_QSCHEMA.isPrefixOf ('!' :: tail) = false from rfl,
    show MSG_QUPDATE.isPrefixOf ('!' :: tail) = false from rfl,
    show MSG_QTRANS.isPrefixOf ('!' :: tail) = false from rfl,
    error_prefix, if_true, Bool.false_eq_true, if_false,
    List.drop_succ_cons, List.drop_zero]
  rw [if_neg (by simp [MSG_PROMPT])]
  rfl

/-- A successfully parsed data-tuple line appends the decoded row and
continues. -/
theorem storeLines_tuple_ok {c c2 : Cursor} {v : Row} (block : PyStr) (hv : HdrVars)
    (body : PyStr) (rest : List PyStr)
    (h : c.parseTuple ('[' :: body) = (.ok v, c2)) :
    Cursor.storeLines block c hv (('[' :: body) :: rest) =
      Cursor.storeLines block {c2 with rows := c2.rows ++ [v]} hv rest := by
  rw [Cursor.storeLines.eq_2]
  simp only [show MSG_INFO.isPrefixOf ('[' :: body) = false from rfl,
    show MSG_QTABLE.isPrefixOf ('[' :: body) = false from rfl,
    show MSG_HEADER.isPrefixOf ('[' :: body) = false from rfl,
    tuple_prefix, Bool.false_eq_true, if_false, if_true, h]

/-- A data-tuple line whose parse fails aborts decoding with that
error, ignoring the remaining lines. -/
theorem storeLines_tuple_err {c c2 : Cursor} {e : Err} (block : PyStr) (hv : HdrVars)
    (body : PyStr) (rest : List PyStr)
    (h : c.parseTuple ('[' :: body) = (.error e, c2)) :
    Cursor.storeLines block c hv (('[' :: body) :: rest) = (.error e, c2) := by
  rw [Cursor.storeLines.eq_2]
  simp only [show MSG_INFO.isPrefixOf ('[' :: body) = false from rfl,
    show MSG_QTABLE.isPrefixOf ('[' :: body) = false from rfl,
    show MSG_HEADER.isPrefixOf ('[' :: body) = false from rfl,
    tuple_prefix, Bool.false_eq_true, if_false, if_true, h]

/-- A buffer-reset line clears the buffered rows and continues. -/
theorem storeLines_qblock (block : PyStr) (c : Cursor) (hv : HdrVars)
    (tail : PyStr) (rest : List PyStr) :
    Cursor.storeLines block c hv (('&' :: '6' :: tail) :: rest) =
      Cursor.storeLines block {c with rows := []} hv rest := by
  rw [Cursor.storeLines.eq_2]
  simp only [show MSG_INFO.isPrefixOf ('&' :: '6' :: tail) = false from rfl,
    show MSG_QTABLE.isPrefixOf ('&' :: '6' :: tail) = false from rfl,
    show MSG_HEADER.isPrefixOf ('&' :: '6' :: tail) = false from rfl,
    show MSG_TUPLE.isPrefixOf ('&' :: '6' :: tail) = false from rfl,
    show MSG_TUPLE_NOSLICE.isPrefixOf ('&' :: '6' :: tail) = false from rfl,
    qblock_prefix, Bool.false_eq_true, if_false, if_true]

/-- An unrecognized line is silently skipped: decoding continues with
the rest of the block and the cursor unchanged. -/
theorem storeLines_skip {line : PyStr} (block : PyStr) (c : Cursor) (hv : HdrVars)
    (rest : List PyStr) (h : unrecognizedLine line) :
    Cursor.storeLines block c hv (line :: rest) =
      Cursor.storeLines block c hv rest := by
  obtain ⟨h1, h2, h3, h4, h5, h6, h7, h8, h9, h10, h11⟩ := h
  rw [Cursor.storeLines.eq_2]
  simp only [h1, h2, h3, h4, h5, h6, h7, h8, h9, h11, Bool.false_eq_true, if_false]
  rw [if_neg h10]

/-- A result-set-opened line with four parseable fields resets the
window and sizes fresh header vectors. -/
theorem storeLines_qtable {q rc cols tups : PyStr} {ncols rcv : Int}
    (block : PyStr) (c : Cursor) (hv : HdrVars) (tail : PyStr) (rest : List PyStr)
    (hsplit : (pySplitWs tail).take 4 = [q, rc, cols, tups])
    (hcols : pyInt cols = some ncols)
    (hrc : pyInt rc = some rcv) :
    Cursor.storeLines block c hv (('&' :: '1' :: tail) :: rest) =
      Cursor.storeLines block
        { c with
          query_id := .qstr q
          rowcount := rcv
          rows := []
          offset := 0
          lastrowid := none }
        { column_name := .vlist (List.replicate ncols.toNat .nil)
          type_ := .vlist (List.replicate ncols.toNat .nil)
          display_size := .vlist (List.replicate ncols.toNat .nil)
          internal_size := .vlist (List.replicate ncols.toNat .nil)
          precision := .vlist (List.replicate ncols.toNat .nil)
          scale := .vlist (List.replicate ncols.toNat .nil)
          null_ok := .vlist (List.replicate ncols.toNat .nil) } rest := by
  rw [Cursor.storeLines.eq_2]
  simp only [show MSG_INFO.isPrefixOf ('&' :: '1' :: tail) = false from rfl,
    qtable_prefix, Bool.false_eq_true, if_false, if_true,
    List.drop_succ_cons, List.drop_zero, hsplit, hcols, hrc]

/-- A header line with a well-formed `<data>#<identity>` shape, a
successful header-variable update, and a zippable description updates
the description and continues. -/
theorem storeLines_header {data identity0 : PyStr} {hv' : HdrVars}
    {desc : List (List PyScalar)}
    (block : PyStr) (c : Cursor) (hv : HdrVars) (tail : PyStr) (rest : List PyStr)
    (hsplit : pySplitOn (toPyStr "#") tail = [data, identity0])
    (hupd : headerUpdate hv (pyStrip identity0)
      ((pySplitOn (toPyStr ",") data).map pyStrip) = .ok hv')
    (hzip : pyZipDesc [hv'.column_name, hv'.type_, hv'.display_size,
      hv'.internal_size, hv'.precision, hv'.scale, hv'.null_ok] = some desc) :
    Cursor.storeLines block c hv (('%' :: tail) :: rest) =
      Cursor.storeLines block
        {c with description := some desc, offset := 0, lastrowid := none}
        hv' rest := by
  rw [Cursor.storeLines.eq_2]
  simp only [show MSG_INFO.isPrefixOf ('%' :: tail) = false from rfl,
    show MSG_QTABLE.isPrefixOf ('%' :: tail) = false from rfl,
    header_prefix, Bool.false_eq_true, if_false, if_true,
    List.drop_succ_cons, List.drop_zero, hsplit, hupd, hzip]

/-- Membership in a join comes from a piece or from the separator. -/
theorem pyJoin_mem {x : Char} {sep : PyStr} :
    ∀ {pieces : List PyStr}, x ∈ pyJoin sep pieces →
      (∃ p ∈ pieces, x ∈ p) ∨ x ∈ sep := by
  intro pieces
  induction pieces with
  | nil => intro h; simp [pyJoin] at h
  | cons a xs ih =>
    intro h
    cases xs with
    | nil => exact Or.inl ⟨a, List.mem_cons_self a [], h⟩
    | cons b ys =>
      have : x ∈ a ++ sep ++ pyJoin sep (b :: ys) := h
      rcases List.mem_append.mp this with h1 | h1
      · rcases List.mem_append.mp h1 with h2 | h2
        · exact Or.inl ⟨a, List.mem_cons_self a _, h2⟩
        · exact Or.inr h2
      · rcases ih h1 with ⟨p, hp, hx⟩ | h2
        · exact Or.inl ⟨p, List.mem_cons_of_mem a hp, hx⟩
        · exact Or.inr h2

/-- A tuple line for newline-free fields contains no newline. -/
theorem tupleLine_no_nl {fields : List PyStr}
    (h : ∀ f ∈ fields, '\n' ∉ f) : '\n' ∉ tupleLine fields := by
  intro hmem
  rcases List.mem_cons.mp hmem with hc | hc
  · exact absurd hc (by decide)
  · rcases List.mem_append.mp hc with h1 | h1
    · rcases pyJoin_mem h1 with ⟨p, hp, hx⟩ | h2
      · exact h p hp hx
      · exact absurd h2 (by decide)
    · exact absurd h1 (by decide)

/-- Splitting an assembled block on newlines recovers the lines plus
the final prompt line. -/
theorem pySplitOn_joinBlock {lines : List PyStr} (h : ∀ l ∈ lines, '\n' ∉ l) :
    pySplitOn (toPyStr "\n") (joinBlock lines) = lines ++ [[]] := by
  unfold joinBlock
  refine pySplitOn_join (show (toPyStr "\n").head? = some '\n' from rfl) _ (by simp) ?_
  intro p hp
  rcases List.mem_append.mp hp with h1 | h1
  · exact h p h1
  · simp only [List.mem_singleton] at h1
    subst h1
    simp

/-- Stripping is the identity on each element of a map over
whitespace-free strings. -/
theorem map_pyStrip_id {l : List PyStr} (h : ∀ s ∈ l, wsFree s) :
    l.map pyStrip = l := by
  induction l with
  | nil => rfl
  | cons a t ih =>
    simp only [List.map_cons]
    rw [pyStrip_eq_self (h a (List.mem_cons_self a t)),
      ih (fun s hs => h s (List.mem_cons_of_mem a hs))]

/-- `__parse_tuple`'s per-field conversion succeeds when every
description entry has at least two items, and produces `convRow`. -/
theorem convertFields_eq :
    ∀ {fields : List PyStr} {desc : List (List PyScalar)},
      fields.length = desc.length → (∀ d ∈ desc, 2 ≤ d.length) →
      convertFields fields desc = some (convRow desc fields) := by
  intro fields
  induction fields with
  | nil =>
    intro desc hlen _
    cases desc with
    | nil => rfl
    | cons d ds => simp at hlen
  | cons f fs ih =>
    intro desc hlen hd
    cases desc with
    | nil => simp at hlen
    | cons d ds =>
      obtain ⟨a, b, t, rfl⟩ : ∃ a b t, d = a :: b :: t := by
        have h2 := hd d (List.mem_cons_self d ds)
        cases d with
        | nil => simp at h2
        | cons a d1 =>
          cases d1 with
          | nil => simp at h2
          | cons b t => exact ⟨a, b, t, rfl⟩
      simp only [convertFields, List.get?]
      rw [ih (by simpa using hlen) (fun e he => hd e (List.mem_cons_of_mem _ he))]
      rfl

/-- Parsing a well-formed tuple line under a matching description
yields the converted row and leaves the cursor unchanged. -/
theorem parseTuple_mk {c : Cursor} {desc : List (List PyScalar)}
    (fields : List PyStr)
    (hdesc : c.description = some desc)
    (hne : fields ≠ [])
    (hwf : ∀ f ∈ fields, ',' ∉ f)
    (hlen : fields.length = desc.length)
    (hd2 : ∀ d ∈ desc, 2 ≤ d.length) :
    c.parseTuple (tupleLine fields) = (.ok (convRow desc fields), c) := by
  unfold Cursor.parseTuple
  have hdrop : ((tupleLine fields).drop 1).dropLast = pyJoin (toPyStr ",\t") fields := by
    show (pyJoin (toPyStr ",\t") fields ++ [']']).dropLast = _
    exact List.dropLast_concat
  rw [hdrop, pySplitOn_join (show (toPyStr ",\t").head? = some ',' from rfl) fields hne hwf, hdesc]
  simp only [hlen, if_true]
  rw [convertFields_eq hlen hd2]

/-- A run of well-formed tuple lines appends the converted rows in
order, leaving everything else (in particular the description and the
message log) unchanged. -/
theorem storeLines_tupleRun {desc : List (List PyScalar)} (block : PyStr)
    (hv : HdrVars) :
    ∀ (rows : List (List PyStr)) (c : Cursor) (rest : List PyStr),
      c.description = some desc →
      (∀ r ∈ rows, r ≠ [] ∧ (∀ f ∈ r, ',' ∉ f) ∧ r.length = desc.length) →
      (∀ d ∈ desc, 2 ≤ d.length) →
      Cursor.storeLines block c hv (rows.map tupleLine ++ rest) =
        Cursor.storeLines block {c with rows := c.rows ++ rows.map (convRow desc)}
          hv rest := by
  intro rows
  induction rows with
  | nil =>
    intro c rest _ _ _
    simp only [List.map_nil, List.nil_append, List.append_nil]
  | cons r rs ih =>
    intro c rest hdesc hrows hd2
    obtain ⟨hne, hwf, hlen⟩ := hrows r (List.mem_cons_self r rs)
    have hparse := parseTuple_mk (c := c) r hdesc hne hwf hlen hd2
    simp only [List.map_cons, List.cons_append]
    rw [show tupleLine r = '[' :: (pyJoin (toPyStr ",\t") r ++ [']']) from rfl]
    rw [storeLines_tuple_ok block hv _ _ hparse]
    rw [ih {c with rows := c.rows ++ [convRow desc r]} _ (by exact hdesc)
      (fun x hx => hrows x (List.mem_cons_of_mem r hx)) hd2]
    simp only [List.append_assoc, List.singleton_append]

/-- Decoding a page-fetch response block (buffer reset plus tuple
lines) replaces the buffered rows with the converted page and succeeds;
no other cursor field changes. -/
theorem storeResult_export {c : Cursor} {desc : List (List PyScalar)}
    (page : List (List PyStr))
    (hdesc : c.description = some desc)
    (hrows : ∀ r ∈ page, r ≠ [] ∧ (∀ f ∈ r, ',' ∉ f ∧ '\n' ∉ f) ∧
      r.length = desc.length)
    (hd2 : ∀ d ∈ desc, 2 ≤ d.length) :
    c.storeResult (joinBlock (qblockLine :: page.map tupleLine)) =
      (.ok (), {c with rows := page.map (convRow desc)}) := by
  unfold Cursor.storeResult
  rw [pySplitOn_joinBlock]
  · simp only [List.cons_append]
    rw [show qblockLine = '&' :: '6' :: toPyStr " res" from rfl]
    rw [storeLines_qblock]
    rw [storeLines_tupleRun _ {} page _ _ (by exact hdesc)
      (fun r hr => ⟨(hrows r hr).1, fun f hf => ((hrows r hr).2.1 f hf).1,
        (hrows r hr).2.2⟩) hd2]
    simp only [List.nil_append]
    rw [storeLines_prompt]
  · intro l hl
    rcases List.mem_cons.mp hl with rfl | hl
    · decide
    · obtain ⟨r, hr, rfl⟩ := List.mem_map.mp hl
      exact tupleLine_no_nl (fun f hf => ((hrows r hr).2.1 f hf).2)

/-- Zipping seven list-valued header variables: elementwise 7-tuples,
truncated to the shortest vector. -/
theorem pyZipDesc_vlist7 (l1 l2 l3 l4 l5 l6 l7 : List PyScalar) :
    pyZipDesc [.vlist l1, .vlist l2, .vlist l3, .vlist l4, .vlist l5,
      .vlist l6, .vlist l7] =
    some ((List.range (min (min (min (min (min (min l1.length l2.length)
        l3.length) l4.length) l5.length) l6.length) l7.length)).map
      (fun idx => [l1.getD idx .nil, l2.getD idx .nil, l3.getD idx .nil,
        l4.getD idx .nil, l5.getD idx .nil, l6.getD idx .nil,
        l7.getD idx .nil])) := rfl

/-- `getD` on a replicated list of `nil`s is always `nil`. -/
theorem getD_replicate_nil (m idx : Nat) :
    (List.replicate m PyScalar.nil).getD idx PyScalar.nil = PyScalar.nil := by
  rcases Nat.lt_or_ge idx m with h | h
  · rw [List.getD_eq_getElem _ _ (by simpa using h)]
    simp
  · rw [List.getD_eq_default]
    simpa using h

/-- The indexed description formula produced by zipping the header
vectors equals `mkDesc`. -/
theorem rangeMap_desc :
    ∀ (names types : List PyStr), names.length = types.length →
      (List.range names.length).map (fun idx =>
        [(names.map PyScalar.s).getD idx PyScalar.nil,
         (types.map PyScalar.s).getD idx PyScalar.nil,
         PyScalar.nil, PyScalar.nil, PyScalar.nil, PyScalar.nil,
         PyScalar.nil]) = mkDesc names types := by
  intro names
  induction names with
  | nil => intro types h; rfl
  | cons n ns ih =>
    intro types h
    cases types with
    | nil => simp at h
    | cons t ts =>
      simp only [List.length_cons, List.range_succ_eq_map, List.map_cons,
        List.map_map]
      have hlen : ns.length = ts.length := by simpa using h
      have hmk : mkDesc (n :: ns) (t :: ts) =
          [PyScalar.s n, PyScalar.s t, .nil, .nil, .nil, .nil, .nil] ::
            mkDesc ns ts := rfl
      rw [hmk]
      congr 1
      rw [← ih ts hlen]
      apply List.map_congr_left
      intro idx _
      simp [Function.comp]

/-- Every entry of `mkDesc` is a 7-tuple (so in particular has at
least two items). -/
theorem mkDesc_entry_len :
    ∀ {names types : List PyStr}, ∀ d ∈ mkDesc names types, 2 ≤ d.length := by
  intro names
  induction names with
  | nil => intro types d hd; simp [mkDesc] at hd
  | cons n ns ih =>
    intro types d hd
    cases types with
    | nil => simp [mkDesc] at hd
    | cons t ts =>
      rcases List.mem_cons.mp hd with rfl | hd
      · simp
      · exact ih d hd

/-- The length of `mkDesc`. -/
theorem mkDesc_length (names types : List PyStr) :
    (mkDesc names types).length = min names.length types.length :=
  List.length_zipWith _ _ _

/-- Converting a row against `mkDesc` uses exactly the column types. -/
theorem convRow_mkDesc :
    ∀ (fields names types : List PyStr), names.length = types.length →
      convRow (mkDesc names types) fields = parsedRow types fields := by
  intro fields
  induction fields with
  | nil =>
    intro names types _
    simp [convRow, parsedRow]
  | cons f fs ih =>
    intro names types h
    cases names with
    | nil =>
      cases types with
      | nil => rfl
      | cons t ts => simp at h
    | cons n ns =>
      cases types with
      | nil => simp at h
      | cons t ts =>
        show Value.conv (pyStrip f)
            ([PyScalar.s n, PyScalar.s t, .nil, .nil, .nil, .nil, .nil].getD 1 .nil)
            :: convRow (mkDesc ns ts) fs = _
        rw [ih ns ts (by simpa using h)]
        rfl

/-- The `name` header branch of the identity dispatch. -/
theorem headerUpdate_name (hv : HdrVars) (values : List PyStr) :
    headerUpdate hv (toPyStr "name") values =
      .ok {hv with column_name := .vlist (values.map .s)} := rfl

/-- The `type` header branch of the identity dispatch. -/
theorem headerUpdate_type (hv : HdrVars) (values : List PyStr) :
    headerUpdate hv (toPyStr "type") values =
      .ok {hv with type_ := .vlist (values.map .s)} := by
  unfold headerUpdate
  rw [if_neg (by decide), if_pos rfl]

/-- Rows of a clipped slice come from the original table. -/
theorem sliceClip_subset {α : Type} {l : List α} {a b : Int} {r : α}
    (h : r ∈ sliceClip l a b) : r ∈ l := by
  unfold sliceClip at h
  exact List.mem_of_mem_take (List.mem_of_mem_drop h)

/-- A character in none of the pieces and not in the separator is not
in the join. -/
theorem pyJoin_not_mem {x : Char} {sep : PyStr} {pieces : List PyStr}
    (hp : ∀ p ∈ pieces, x ∉ p) (hs : x ∉ sep) : x ∉ pyJoin sep pieces := by
  intro h
  rcases pyJoin_mem h with ⟨p, hmem, hx⟩ | h2
  · exact hp p hmem hx
  · exact hs h2

/-- The result-set-opened line, re-expressed as its leading prefix
followed by a space-join of its four fields. -/
theorem qtableLine_shape (qid : PyStr) (a b c : Nat) :
    qtableLine qid a b c = '&' :: '1' :: ' ' ::
      pyJoin [' '] [qid, natToPyStr a, natToPyStr b, natToPyStr c] := by
  show (((((((['&', '1', ' '] : PyStr) ++ qid) ++ [' ']) ++ natToPyStr a) ++ [' ']) ++
    natToPyStr b) ++ [' ']) ++ natToPyStr c = '&' :: '1' :: ' ' ::
      ((qid ++ [' ']) ++ ((natToPyStr a ++ [' ']) ++ ((natToPyStr b ++ [' ']) ++
        natToPyStr c)))
  simp [List.append_assoc]

/-- Splitting a header line body `<data>#<identity>` on `#` when
neither part contains `#`. -/
theorem headerBody_split {data identity : PyStr}
    (hdata : '#' ∉ data) (hid : '#' ∉ identity) :
    pySplitOn (toPyStr "#") (data ++ '#' :: identity) = [data, identity] := by
  have h2 : data ++ '#' :: identity =
      pyJoin (toPyStr "#") [data, identity] := by
    show _ = data ++ toPyStr "#" ++ identity
    rw [List.append_assoc]
    rfl
  rw [h2]
  refine pySplitOn_join (show (toPyStr "#").head? = some '#' from rfl) _ (by simp) ?_
  intro p hp
  rcases List.mem_cons.mp hp with rfl | hp
  · exact hdata
  rcases List.mem_cons.mp hp with rfl | hp
  · exact hid
  · simp at hp

/-- The final zipped description, with all auxiliary vectors still at
their sized defaults, is `mkDesc`. -/
theorem zipDesc_final (names types : List PyStr) (m : Nat)
    (hlen : names.length = types.length) (hm : m = names.length) :
    pyZipDesc [.vlist (names.map PyScalar.s), .vlist (types.map PyScalar.s),
      .vlist (List.replicate m PyScalar.nil), .vlist (List.replicate m PyScalar.nil),
      .vlist (List.replicate m PyScalar.nil), .vlist (List.replicate m PyScalar.nil),
      .vlist (List.replicate m PyScalar.nil)] = some (mkDesc names types) := by
  subst hm
  rw [pyZipDesc_vlist7]
  congr 1
  have hK : min (min (min (min (min (min (names.map PyScalar.s).length
      (types.map PyScalar.s).length)
      (List.replicate names.length PyScalar.nil).length)
      (List.replicate names.length PyScalar.nil).length)
      (List.replicate names.length PyScalar.nil).length)
      (List.replicate names.length PyScalar.nil).length)
      (List.replicate names.length PyScalar.nil).length = names.length := by
    simp only [List.length_map, List.length_replicate]
    omega
  rw [hK, ← rangeMap_desc names types hlen]
  apply List.map_congr_left
  intro idx _
  rw [getD_replicate_nil]

/-- Decoding the response block of an executed statement that opened a
result set: the cursor ends with the server's query id, the total row
count, the column description, and the first page of converted rows. -/
theorem storeResult_exec {c : Cursor} (qid : PyStr) (names types : List PyStr)
    (table : List (List PyStr)) (rs : Int)
    (hq : goodQid qid)
    (hnames : ∀ s ∈ names, goodHdrVal s)
    (htypes : ∀ s ∈ types, goodHdrVal s)
    (hlen : names.length = types.length)
    (h1 : 1 ≤ types.length)
    (htable : goodTable types.length table) :
    c.storeResult (mkExecBlock qid names types table rs) =
      (.ok (), { c with
        query_id := .qstr qid
        rowcount := (table.length : Int)
        description := some (mkDesc names types)
        offset := 0
        lastrowid := none
        rows := (sliceClip table 0 rs).map (parsedRow types) }) := by
  obtain ⟨hqne, hqws, hqnl⟩ := hq
  have hnNe : names ≠ [] := by
    intro h
    rw [h] at hlen
    simp only [List.length_nil] at hlen
    omega
  have hnamesNoComma : ∀ s ∈ names, ',' ∉ s := fun s hs => (hnames s hs).2.1
  have hnamesWs : ∀ s ∈ names, wsFree s := fun s hs => (hnames s hs).2.2.2
  have htNe : types ≠ [] := by
    intro h; rw [h] at h1; simp at h1
  have htypesNoComma : ∀ s ∈ types, ',' ∉ s := fun s hs => (htypes s hs).2.1
  have htypesWs : ∀ s ∈ types, wsFree s := fun s hs => (htypes s hs).2.2.2
  have hpageWf : ∀ r ∈ sliceClip table 0 rs, r ≠ [] ∧ (∀ f ∈ r, ',' ∉ f ∧ '\n' ∉ f) ∧
      r.length = (mkDesc names types).length := by
    intro r hr
    obtain ⟨hrl, hrf⟩ := htable r (sliceClip_subset hr)
    refine ⟨?_, fun f hf => ⟨(hrf f hf).1, (hrf f hf).2⟩, ?_⟩
    · intro hnil
      rw [hnil] at hrl
      simp only [List.length_nil] at hrl
      omega
    · rw [hrl, mkDesc_length, hlen, Nat.min_self]
  unfold mkExecBlock Cursor.storeResult
  rw [pySplitOn_joinBlock]
  swap
  · intro l hl
    rcases List.mem_cons.mp hl with rfl | hl
    · intro hmem
      rcases List.mem_append.mp hmem with h2 | h2
      · rcases List.mem_append.mp h2 with h3 | h3
        · rcases List.mem_append.mp h3 with h4 | h4
          · rcases List.mem_append.mp h4 with h5 | h5
            · rcases List.mem_append.mp h5 with h6 | h6
              · rcases List.mem_append.mp h6 with h7 | h7
                · rcases List.mem_append.mp h7 with h8 | h8
                  · exact absurd h8 (by decide)
                  · exact hqnl h8
                · exact absurd h7 (by decide)
              · exact natToPyStr_no_nl _ h6
            · exact absurd h5 (by decide)
          · exact natToPyStr_no_nl _ h4
        · exact absurd h3 (by decide)
      · exact natToPyStr_no_nl _ h2
    rcases List.mem_cons.mp hl with rfl | hl
    · intro hmem
      rcases List.mem_cons.mp hmem with h2 | h2
      · exact absurd h2 (by decide)
      rcases List.mem_append.mp h2 with h3 | h3
      · exact pyJoin_not_mem (fun p hp => (hnames p hp).1) (by decide) h3
      rcases List.mem_cons.mp h3 with h4 | h4
      · exact absurd h4 (by decide)
      · exact absurd h4 (by decide)
    rcases List.mem_cons.mp hl with rfl | hl
    · intro hmem
      rcases List.mem_cons.mp hmem with h2 | h2
      · exact absurd h2 (by decide)
      rcases List.mem_append.mp h2 with h3 | h3
      · exact pyJoin_not_mem (fun p hp => (htypes p hp).1) (by decide) h3
      rcases List.mem_cons.mp h3 with h4 | h4
      · exact absurd h4 (by decide)
      · exact absurd h4 (by decide)
    · obtain ⟨r, hr, rfl⟩ := List.mem_map.mp hl
      exact tupleLine_no_nl (fun f hf => ((hpageWf r hr).2.1 f hf).2)
  · simp only [List.cons_append]
    rw [qtableLine_shape]
    have htoks : ∀ t ∈ [qid, natToPyStr table.length, natToPyStr names.length,
        natToPyStr (sliceClip table 0 rs).length], t ≠ [] ∧ wsFree t := by
      intro t ht
      rcases List.mem_cons.mp ht with rfl | ht
      · exact ⟨hqne, hqws⟩
      rcases List.mem_cons.mp ht with rfl | ht
      · exact ⟨natToPyStr_ne_nil _, natToPyStr_wsFree _⟩
      rcases List.mem_cons.mp ht with rfl | ht
      · exact ⟨natToPyStr_ne_nil _, natToPyStr_wsFree _⟩
      rcases List.mem_cons.mp ht with rfl | ht
      · exact ⟨natToPyStr_ne_nil _, natToPyStr_wsFree _⟩
      · simp at ht
    have hsp : (pySplitWs (' ' :: pyJoin [' '] [qid, natToPyStr table.length,
        natToPyStr names.length, natToPyStr (sliceClip table 0 rs).length])).take 4 =
        [qid, natToPyStr table.length, natToPyStr names.length,
          natToPyStr (sliceClip table 0 rs).length] := by
      rw [pySplitWs_cons_space, pySplitWs_join (by simp) htoks]
      rfl
    rw [storeLines_qtable _ _ _ _ _ hsp (pyInt_natToPyStr _) (pyInt_natToPyStr _)]
    simp only [Int.toNat_ofNat]
    rw [show headerLine names (toPyStr "name") =
      '%' :: (pyJoin (toPyStr ",") names ++ '#' :: toPyStr "name") from rfl]
    have hsplitN := headerBody_split
      (show ('#' : Char) ∉ pyJoin (toPyStr ",") names from
        pyJoin_not_mem (fun p hp => (hnames p hp).2.2.1) (by decide))
      (show ('#' : Char) ∉ toPyStr "name" from by decide)
    have hvalsN : (pySplitOn (toPyStr ",") (pyJoin (toPyStr ",") names)).map pyStrip =
        names := by
      rw [pySplitOn_join (show (toPyStr ",").head? = some ',' from rfl) names hnNe hnamesNoComma,
        map_pyStrip_id hnamesWs]
    have hupdN : ∀ hv : HdrVars, headerUpdate hv (pyStrip (toPyStr "name"))
        ((pySplitOn (toPyStr ",") (pyJoin (toPyStr ",") names)).map pyStrip) =
        .ok {hv with column_name := .vlist (names.map .s)} := by
      intro hv
      rw [hvalsN, show pyStrip (toPyStr "name") = toPyStr "name" from rfl]
      exact headerUpdate_name hv names
    rw [storeLines_header _ _ _ _ _ hsplitN (hupdN _)
      (pyZipDesc_vlist7 (names.map .s) (List.replicate names.length .nil)
        (List.replicate names.length .nil) (List.replicate names.length .nil)
        (List.replicate names.length .nil) (List.replicate names.length .nil)
        (List.replicate names.length .nil))]
    rw [show headerLine types (toPyStr "type") =
      '%' :: (pyJoin (toPyStr ",") types ++ '#' :: toPyStr "type") from rfl]
    have hsplitT := headerBody_split
      (show ('#' : Char) ∉ pyJoin (toPyStr ",") types from
        pyJoin_not_mem (fun p hp => (htypes p hp).2.2.1) (by decide))
      (show ('#' : Char) ∉ toPyStr "type" from by decide)
    have hvalsT : (pySplitOn (toPyStr ",") (pyJoin (toPyStr ",") types)).map pyStrip =
        types := by
      rw [pySplitOn_join (show (toPyStr ",").head? = some ',' from rfl) types htNe htypesNoComma,
        map_pyStrip_id htypesWs]
    have hupdT : ∀ hv : HdrVars, headerUpdate hv (pyStrip (toPyStr "type"))
        ((pySplitOn (toPyStr ",") (pyJoin (toPyStr ",") types)).map pyStrip) =
        .ok {hv with type_ := .vlist (types.map .s)} := by
      intro hv
      rw [hvalsT, show pyStrip (toPyStr "type") = toPyStr "type" from rfl]
      exact headerUpdate_type hv types
    rw [storeLines_header _ _ _ _ _ hsplitT (hupdT _)
      (zipDesc_final names types names.length hlen rfl)]
    rw [storeLines_tupleRun _ _ (sliceClip table 0 rs) _ _ rfl
      (fun r hr => ⟨(hpageWf r hr).1, fun f hf => ((hpageWf r hr).2.1 f hf).1,
        (hpageWf r hr).2.2⟩)
      mkDesc_entry_len]
    rw [storeLines_prompt]
    have hcr : ∀ fl, convRow (mkDesc names types) fl = parsedRow types fl :=
      fun fl => convRow_mkDesc fl names types hlen
    have hmapcr : List.map (convRow (mkDesc names types)) (sliceClip table 0 rs) =
        List.map (parsedRow types) (sliceClip table 0 rs) :=
      List.map_congr_left (fun fl _ => hcr fl)
    rw [hmapcr]
    rfl

/-- Executing a statement whose reply opens a result set: the returned
count is the total row count, and the cursor is positioned at row `0`
with the first page buffered. -/
theorem execute_resultSet {c0 : Cursor} {conn : Connection} (op : PyStr)
    (qid : PyStr) (names types : List PyStr) (table : List (List PyStr))
    (hconn : c0.connection = some conn)
    (hreply : conn.reply = .resultSet qid names types table)
    (hrs : conn.replysize = c0.arraysize)
    (hq : goodQid qid)
    (hnames : ∀ s ∈ names, goodHdrVal s)
    (htypes : ∀ s ∈ types, goodHdrVal s)
    (hlen : names.length = types.length)
    (h1 : 1 ≤ types.length)
    (htable : goodTable types.length table) :
    c0.execute op .noneP =
      (.ok (table.length : Int), { c0 with
        connection := some conn
        operation := op
        messages := []
        query_id := .qstr qid
        rowcount := (table.length : Int)
        description := some (mkDesc names types)
        offset := 0
        lastrowid := none
        rows := (sliceClip table 0 c0.arraysize).map (parsedRow types)
        rownumber := 0
        executed := some op }) := by
  have hne : ¬(({c0 with messages := ([] : List (ExcClass × PyStr))}).arraysize ≠
      conn.replysize) := by
    show ¬(c0.arraysize ≠ conn.replysize)
    rw [hrs]
    exact fun h => h rfl
  simp only [Cursor.execute, hconn, PyParams.truthy, if_neg hne,
    Bool.false_eq_true, if_false]
  simp only [Connection.execute, hreply]
  rw [storeResult_exec qid names types table conn.replysize hq hnames htypes
    hlen h1 htable]
  rw [hrs]

/-- The page-fetch command built by `nextset`/`scroll` is the
space-join of its four tokens. -/
theorem xexportCmd_shape (qid : PyStr) (off amt : Int) :
    xexportCmd (.qstr qid) off amt =
      pyJoin [' '] [toPyStr "Xexport", qid, intToPyStr off, intToPyStr amt] := by
  show ((((['X','e','x','p','o','r','t',' '] : PyStr) ++ qid) ++ [' ']) ++
      intToPyStr off ++ [' ']) ++ intToPyStr amt =
    ((['X','e','x','p','o','r','t'] : PyStr) ++ [' ']) ++
      ((qid ++ [' ']) ++ ((intToPyStr off ++ [' ']) ++ intToPyStr amt))
  simp [List.append_assoc]

/-- The modelled connection answers a well-formed page-fetch command
with the requested page block, recording the command in its log. -/
theorem command_xexport {conn : Connection} {qid : PyStr}
    {names types : List PyStr} {table : List (List PyStr)}
    (hreply : conn.reply = .resultSet qid names types table)
    (hq : goodQid qid) (off amt : Int) :
    conn.command (xexportCmd (.qstr qid) off amt) =
      (mkExportBlock table off amt,
        {conn with log := conn.log ++ [xexportCmd (.qstr qid) off amt]}) := by
  obtain ⟨hqne, hqws, -⟩ := hq
  have htoks : ∀ t ∈ [toPyStr "Xexport", qid, intToPyStr off, intToPyStr amt],
      t ≠ [] ∧ wsFree t := by
    intro t ht
    rcases List.mem_cons.mp ht with rfl | ht
    · exact ⟨by decide, by decide⟩
    rcases List.mem_cons.mp ht with rfl | ht
    · exact ⟨hqne, hqws⟩
    rcases List.mem_cons.mp ht with rfl | ht
    · exact ⟨intToPyStr_ne_nil _, intToPyStr_wsFree _⟩
    rcases List.mem_cons.mp ht with rfl | ht
    · exact ⟨intToPyStr_ne_nil _, intToPyStr_wsFree _⟩
    · simp at ht
  have hsplit : pySplitWs (xexportCmd (.qstr qid) off amt) =
      [toPyStr "Xexport", qid, intToPyStr off, intToPyStr amt] := by
    rw [xexportCmd_shape, pySplitWs_join (by simp) htoks]
  simp only [Connection.command, hreply, hsplit, eq_self_iff_true, and_self,
    if_true]
  rw [pyInt_intToPyStr, pyInt_intToPyStr]

/-- A clipped slice as a drop-then-take window. -/
theorem sliceClip_window {α : Type} (l : List α) (a b : Int) :
    sliceClip l a b = (l.drop a.toNat).take (b.toNat - a.toNat) := by
  unfold sliceClip
  rw [List.drop_take]

/-- Python indexing at a non-negative index. -/
theorem pyGet_nonneg {α : Type} (l : List α) {i : Int} (h : 0 ≤ i) :
    pyGet l i = l.get? i.toNat := by
  unfold pyGet
  rw [if_pos h]

/-- `nextset` on a live result set with rows remaining: it issues the
page-fetch command at the new offset and replaces the buffer with the
requested page. -/
theorem nextset_page {qid : PyStr} {names types : List PyStr}
    {table : List (List PyStr)} {c : Cursor} {conn : Connection}
    (hconn : c.connection = some conn)
    (hreply : conn.reply = .resultSet qid names types table)
    (hqid : c.query_id = .qstr qid)
    (hrowcount : c.rowcount = (table.length : Int))
    (hexec : executedTruthy c.executed = true)
    (hq : goodQid qid)
    (hdesc : c.description = some (mkDesc names types))
    (hlen : names.length = types.length)
    (h1t : 1 ≤ types.length)
    (htable : goodTable types.length table)
    (hlt : c.rownumber < (table.length : Int)) :
    c.nextset = (.ok true, { c with
      offset := c.offset + (c.rows.length : Int)
      connection := some {conn with log := conn.log ++
        [xexportCmd (.qstr qid) (c.offset + (c.rows.length : Int))
          (min (table.length : Int) (c.rownumber + c.arraysize) -
            (c.offset + (c.rows.length : Int)))]}
      rows := (sliceClip table (c.offset + (c.rows.length : Int))
        (min (table.length : Int) (c.rownumber + c.arraysize))).map
          (parsedRow types) }) := by
  have hnotdone : ¬(c.rownumber ≥ c.rowcount) := by
    rw [hrowcount]; omega
  unfold Cursor.nextset
  rw [if_neg (by simp [hexec]), if_neg hnotdone]
  simp only [hconn, hrowcount, hqid, hrowcount]
  rw [command_xexport hreply hq]
  dsimp only
  simp only [mkExportBlock]
  have hoamt : c.offset + (c.rows.length : Int) +
      (min (table.length : Int) (c.rownumber + c.arraysize) -
        (c.offset + (c.rows.length : Int))) =
      min (table.length : Int) (c.rownumber + c.arraysize) := by ring
  have hpageWf : ∀ r ∈ sliceClip table (c.offset + (c.rows.length : Int))
      (c.offset + (c.rows.length : Int) +
        (min (table.length : Int) (c.rownumber + c.arraysize) -
          (c.offset + (c.rows.length : Int)))),
      r ≠ [] ∧ (∀ f ∈ r, ',' ∉ f ∧ '\n' ∉ f) ∧
        r.length = (mkDesc names types).length := by
    intro r hr
    obtain ⟨hrl, hrf⟩ := htable r (sliceClip_subset hr)
    refine ⟨?_, hrf, ?_⟩
    · intro hnil
      rw [hnil] at hrl
      simp only [List.length_nil] at hrl
      omega
    · rw [hrl, mkDesc_length, hlen, Nat.min_self]
  rw [storeResult_export _ (by exact hdesc) hpageWf mkDesc_entry_len]
  have hcr : List.map (convRow (mkDesc names types))
      (sliceClip table (c.offset + (c.rows.length : Int))
        (c.offset + (c.rows.length : Int) +
          (min (table.length : Int) (c.rownumber + c.arraysize) -
            (c.offset + (c.rows.length : Int))))) =
      List.map (parsedRow types)
        (sliceClip table (c.offset + (c.rows.length : Int))
          (min (table.length : Int) (c.rownumber + c.arraysize))) := by
    rw [hoamt]
    exact List.map_congr_left (fun fl _ => convRow_mkDesc fl names types hlen)
  rw [hcr]

/-- `fetchone` past the end of the result set returns the no-row
sentinel and changes nothing. -/
theorem fetchone_done {c : Cursor}
    (hexec : executedTruthy c.executed = true)
    (hqid : c.query_id ≠ .qint (-1))
    (hge : c.rownumber ≥ c.rowcount) :
    c.fetchone = (.ok none, c) := by
  unfold Cursor.fetchone
  rw [if_neg (by simp [hexec]), if_neg hqid, if_pos hge]

/-- `fetchone` at a live position returns exactly the logical row at
`rownumber`, advances the position by one, and preserves the window
invariant — transparently fetching the next page when the position has
left the buffered window. -/
theorem fetchone_at {qid : PyStr} {names types : List PyStr}
    {table : List (List PyStr)} {c : Cursor} {r : List PyStr}
    (hinv : WinInv qid names types table c)
    (hr : table.get? c.rownumber.toNat = some r) :
    ∃ c', c.fetchone = (.ok (some (parsedRow types r)), c') ∧
      WinInv qid names types table c' ∧
      c'.rownumber = c.rownumber + 1 ∧
      c'.messages = c.messages ∧
      c'.arraysize = c.arraysize ∧
      c'.rowcount = c.rowcount := by
  obtain ⟨conn, L, hconn, hreply, hqid, hrowcount, harr, hexec, hdesc, hnamlen,
    htyp1, hq, htable, hoff0, hoffrn, hrnwin, hwinR, hrows⟩ := hinv
  have hn0 : 0 ≤ c.rownumber := le_trans hoff0 hoffrn
  have hlt : c.rownumber < (table.length : Int) := by
    rcases List.get?_eq_some.mp hr with ⟨hlt', -⟩
    omega
  have hLrows : c.rows.length = L := by
    rw [hrows]
    simp only [List.length_map, List.length_take, List.length_drop]
    omega
  have hqne : c.query_id ≠ .qint (-1) := by rw [hqid]; simp
  have hnotdone : ¬(c.rownumber ≥ c.rowcount) := by rw [hrowcount]; omega
  by_cases hcase : c.rownumber ≥ c.offset + (c.rows.length : Int)
  · -- position left the window: a page fetch happens first
    have hnext := nextset_page hconn hreply hqid hrowcount hexec hq hdesc
      hnamlen htyp1 htable hlt
    have hoffeq : c.offset + (c.rows.length : Int) = c.rownumber := by omega
    rw [hoffeq] at hnext
    have hend1 : c.rownumber < min (table.length : Int)
        (c.rownumber + c.arraysize) := by omega
    refine ⟨{c with
        connection := some {conn with log := conn.log ++
          [xexportCmd (.qstr qid) c.rownumber
            (min (table.length : Int) (c.rownumber + c.arraysize) -
              c.rownumber)]}
        offset := c.rownumber
        rows := (sliceClip table c.rownumber
          (min (table.length : Int) (c.rownumber + c.arraysize))).map
            (parsedRow types)
        rownumber := c.rownumber + 1}, ?_, ?_, rfl, rfl, rfl, rfl⟩
    · unfold Cursor.fetchone
      rw [if_neg (by simp [hexec]), if_neg hqne, if_neg hnotdone,
        if_pos hcase, hnext]
      dsimp only
      rw [pyGet_nonneg _ (by omega)]
      have hget : ((sliceClip table c.rownumber
          (min (table.length : Int) (c.rownumber + c.arraysize))).map
            (parsedRow types)).get? (c.rownumber - c.rownumber).toNat =
          some (parsedRow types r) := by
        rw [List.get?_map, sliceClip_window]
        have hz : (c.rownumber - c.rownumber).toNat = 0 := by omega
        rw [hz]
        have hpos : 0 < (min (table.length : Int)
            (c.rownumber + c.arraysize)).toNat - c.rownumber.toNat := by
          omega
        rw [List.get?_take hpos, List.get?_drop]
        rw [show c.rownumber.toNat + 0 = c.rownumber.toNat from by omega, hr]
        rfl
      rw [hget]
    · refine ⟨{conn with log := conn.log ++
        [xexportCmd (.qstr qid) c.rownumber
          (min (table.length : Int) (c.rownumber + c.arraysize) -
            c.rownumber)]},
        (min (table.length : Int) (c.rownumber + c.arraysize)).toNat -
          c.rownumber.toNat,
        rfl, hreply, hqid, hrowcount, harr, hexec, hdesc, hnamlen, htyp1, hq,
        htable, by dsimp only; omega, by dsimp only; omega, ?_, ?_, ?_⟩
      · dsimp only
        omega
      · dsimp only
        omega
      · dsimp only
        rw [sliceClip_window]
  · -- position inside the window
    refine ⟨{c with rownumber := c.rownumber + 1}, ?_, ?_, rfl, rfl, rfl, rfl⟩
    · unfold Cursor.fetchone
      rw [if_neg (by simp [hexec]), if_neg hqne, if_neg hnotdone,
        if_neg hcase]
      dsimp only
      rw [pyGet_nonneg _ (by omega)]
      have hget : c.rows.get? (c.rownumber - c.offset).toNat =
          some (parsedRow types r) := by
        rw [hrows, List.get?_map]
        have h1' : (c.rownumber - c.offset).toNat < L := by omega
        rw [List.get?_take h1', List.get?_drop]
        rw [show c.offset.toNat + (c.rownumber - c.offset).toNat =
          c.rownumber.toNat from by omega, hr]
        rfl
      rw [hget]
    · exact ⟨conn, L, hconn, hreply, hqid, hrowcount, harr, hexec, hdesc,
        hnamlen, htyp1, hq, htable, hoff0, by dsimp only; omega,
        by dsimp only; omega, hwinR, hrows⟩

/-- Executing a statement against a connection holding a result set
establishes the window invariant at logical position `0` with an empty
message log. -/
theorem execute_WinInv {c0 : Cursor} {conn : Connection} {op qid : PyStr}
    {names types : List PyStr} {table : List (List PyStr)}
    (hconn : c0.connection = some conn)
    (hreply : conn.reply = .resultSet qid names types table)
    (hrs : conn.replysize = c0.arraysize)
    (harr : 1 ≤ c0.arraysize)
    (hop : op ≠ [])
    (hq : goodQid qid)
    (hnames : ∀ s ∈ names, goodHdrVal s)
    (htypes : ∀ s ∈ types, goodHdrVal s)
    (hlen : names.length = types.length)
    (h1 : 1 ≤ types.length)
    (htable : goodTable types.length table) :
    WinInv qid names types table (c0.execute op .noneP).2 ∧
      (c0.execute op .noneP).2.rownumber = 0 ∧
      (c0.execute op .noneP).2.messages = [] := by
  rw [execute_resultSet op qid names types table hconn hreply hrs hq hnames
    htypes hlen h1 htable]
  refine ⟨⟨conn, min c0.arraysize.toNat table.length, rfl, hreply, rfl, rfl,
    harr, by simp [executedTruthy, hop], rfl, hlen, h1, hq, htable,
    le_refl _, le_refl _, by dsimp only; omega, by dsimp only; omega, ?_⟩,
    rfl, rfl⟩
  dsimp only
  have htk : table.take c0.arraysize.toNat =
      table.take (min c0.arraysize.toNat table.length) :=
    List.take_eq_take.mpr (by omega)
  simp only [sliceClip, Int.toNat_zero, List.drop_zero, htk]

/-- Starting anywhere in the logical table with the window invariant,
`k` successive `fetchone` calls, where `k` is the number of remaining
rows, return exactly those rows in ascending logical order. -/
theorem fetchN_window {qid : PyStr} {names types : List PyStr}
    {table : List (List PyStr)} :
    ∀ (k : Nat) (c : Cursor), WinInv qid names types table c →
      c.rownumber.toNat + k = table.length →
      ∃ c', c.fetchN k =
        (.ok ((table.drop c.rownumber.toNat).map
          (fun r => some (parsedRow types r))), c') := by
  intro k
  induction k with
  | zero =>
    intro c hinv hlen
    refine ⟨c, ?_⟩
    rw [List.drop_eq_nil_of_le (by omega)]
    rfl
  | succ k ih =>
    intro c hinv hlen
    have hrn0 : 0 ≤ c.rownumber := by
      obtain ⟨conn, L, -, -, -, -, -, -, -, -, -, -, -, h1, h2, -, -, -⟩ :=
        hinv
      omega
    have hlt : c.rownumber.toNat < table.length := by omega
    obtain ⟨r, hr⟩ : ∃ r, table.get? c.rownumber.toNat = some r :=
      ⟨_, List.get?_eq_get hlt⟩
    obtain ⟨c', hfe, hinv', hrn', -, -, -⟩ := fetchone_at hinv hr
    have hrn'nat : c'.rownumber.toNat = c.rownumber.toNat + 1 := by
      rw [hrn']
      omega
    obtain ⟨c'', hN⟩ := ih c' hinv' (by omega)
    refine ⟨c'', ?_⟩
    have hstep : Cursor.fetchN (k + 1) c =
        (match c.fetchone with
         | (.error e, c') => (.error e, c')
         | (.ok r, c') =>
           match Cursor.fetchN k c' with
           | (.error e, c'') => (.error e, c'')
           | (.ok rs, c'') => (.ok (r :: rs), c'')) := rfl
    rw [hstep, hfe]
    dsimp only
    rw [hrn'nat] at hN
    rw [hN]
    dsimp only
    have hgr : table.get ⟨c.rownumber.toNat, hlt⟩ = r :=
      Option.some.inj ((List.get?_eq_get hlt).symm.trans hr)
    rw [List.drop_eq_getElem_cons hlt, List.map_cons]
    rw [show table[c.rownumber.toNat] = r from hgr]

/-- C1: windowing correctness — for every executed statement whose
result set has `R` rows and every page size `P ≥ 1`, calling `fetchone`
`R` times returns the `R` rows of the logical result set in ascending
logical order (no duplicates, no gaps), independent of `P`: pages are
re-requested transparently via `nextset` when the position leaves the
buffered window. -/
theorem claim_C1 {c0 : Cursor} {conn : Connection} {op qid : PyStr}
    {names types : List PyStr} {table : List (List PyStr)}
    (hconn : c0.connection = some conn)
    (hreply : conn.reply = .resultSet qid names types table)
    (hrs : conn.replysize = c0.arraysize)
    (harr : 1 ≤ c0.arraysize)
    (hop : op ≠ [])
    (hq : goodQid qid)
    (hnames : ∀ s ∈ names, goodHdrVal s)
    (htypes : ∀ s ∈ types, goodHdrVal s)
    (hlen : names.length = types.length)
    (h1 : 1 ≤ types.length)
    (htable : goodTable types.length table) :
    ((c0.execute op .noneP).2.fetchN table.length).1 =
      .ok (expectedRows types table) := by
  obtain ⟨hinv, hrn, -⟩ := execute_WinInv hconn hreply hrs harr hop hq
    hnames htypes hlen h1 htable
  obtain ⟨c'', hN⟩ := fetchN_window table.length _ hinv (by rw [hrn]; omega)
  rw [hrn] at hN
  rw [hN]
  simp only [Int.toNat_zero, List.drop_zero, expectedRows]

/-- Witness for C1 at a concrete four-row, two-column table with page
size `2`. -/
theorem claim_C1_witness :
    (((Cursor.init exConn).execute (toPyStr "select x, y from tbl")
        .noneP).2.fetchN exTable.length).1 =
      .ok (expectedRows exTypes exTable) :=
  claim_C1 rfl rfl rfl (by decide) (by decide) (by decide) (by decide)
    (by decide) (by decide) (by decide) (by decide)

/-- `scroll` with a recognized mode whose computed target does not
exceed `rowcount` succeeds: it moves `offset` to the target, issues the
page-fetch command for the window starting there, and replaces the
buffer with that window — leaving `rownumber` unchanged. -/
theorem scroll_ok {qid : PyStr} {names types : List PyStr}
    {table : List (List PyStr)} {c : Cursor} {conn : Connection}
    (hconn : c.connection = some conn)
    (hreply : conn.reply = .resultSet qid names types table)
    (hqid : c.query_id = .qstr qid)
    (hrowcount : c.rowcount = (table.length : Int))
    (hexec : executedTruthy c.executed = true)
    (hq : goodQid qid)
    (hdesc : c.description = some (mkDesc names types))
    (hlen : names.length = types.length)
    (h1t : 1 ≤ types.length)
    (htable : goodTable types.length table)
    (v : Int) (mode : PyStr) (t : Int)
    (hmode : mode = toPyStr "relative" ∨ mode = toPyStr "absolute")
    (ht : t = if mode = toPyStr "relative" then v + c.rownumber else v)
    (htle : t ≤ (table.length : Int)) :
    c.scroll v mode = (.ok (), { c with
      offset := t
      connection := some {conn with log := conn.log ++
        [xexportCmd (.qstr qid) t
          (min (table.length : Int) (c.rownumber + c.arraysize) - t)]}
      rows := (sliceClip table t
        (min (table.length : Int) (c.rownumber + c.arraysize))).map
          (parsedRow types) }) := by
  have hmodeok : ¬(mode ≠ toPyStr "relative" ∧ mode ≠ toPyStr "absolute") := by
    rintro ⟨h1, h2⟩
    rcases hmode with h | h
    · exact h1 h
    · exact h2 h
  unfold Cursor.scroll
  rw [if_neg (by simp [hexec]), if_neg hmodeok]
  rw [show (if mode = toPyStr "relative" then v + c.rownumber else v) = t from
    ht.symm]
  rw [if_neg (show ¬(t > c.rowcount) from by rw [hrowcount]; omega)]
  simp only [hconn, hrowcount, hqid]
  rw [command_xexport hreply hq]
  dsimp only
  simp only [mkExportBlock]
  have hoamt : t + (min (table.length : Int) (c.rownumber + c.arraysize) - t) =
      min (table.length : Int) (c.rownumber + c.arraysize) := by ring
  have hpageWf : ∀ r ∈ sliceClip table t
      (t + (min (table.length : Int) (c.rownumber + c.arraysize) - t)),
      r ≠ [] ∧ (∀ f ∈ r, ',' ∉ f ∧ '\n' ∉ f) ∧
        r.length = (mkDesc names types).length := by
    intro r hr
    obtain ⟨hrl, hrf⟩ := htable r (sliceClip_subset hr)
    refine ⟨?_, hrf, ?_⟩
    · intro hnil
      rw [hnil] at hrl
      simp only [List.length_nil] at hrl
      omega
    · rw [hrl, mkDesc_length, hlen, Nat.min_self]
  rw [storeResult_export _ (by exact hdesc) hpageWf mkDesc_entry_len]
  have hcr : List.map (convRow (mkDesc names types))
      (sliceClip table t
        (t + (min (table.length : Int) (c.rownumber + c.arraysize) - t))) =
      List.map (parsedRow types)
        (sliceClip table t
          (min (table.length : Int) (c.rownumber + c.arraysize))) := by
    rw [hoamt]
    exact List.map_congr_left (fun fl _ => convRow_mkDesc fl names types hlen)
  rw [hcr]

/-- C2 counterexample: on a four-row result set with page size `3`,
`scroll(1, 'absolute')` followed by `fetchone` returns the row at
logical index `2`, not the row at logical index `1` demanded by the
claim (`scroll` moves the buffer offset without moving `rownumber`, so
the subsequent buffer lookup is misaligned). -/
theorem claim_C2_counterexample :
    ((ex1Cursor.scroll 1 (toPyStr "absolute")).2.fetchone).1 =
      .ok (some (parsedRow [toPyStr "int"] [toPyStr "r2"])) ∧
    parsedRow [toPyStr "int"] [toPyStr "r2"] ≠
      parsedRow [toPyStr "int"] [toPyStr "r1"] := by
  constructor
  · rfl
  · decide

/-- C2 (amended): the scroll round trip holds exactly at the current
position — for an executed tabular result with a live row at
`rownumber`, `scroll(0, 'relative')` followed by `fetchone` returns the
row an uninterrupted fetch sequence would have produced there, and
`scroll(k, 'absolute')` with `k = rownumber` followed by `fetchone`
returns the row at logical index `k`. -/
theorem claim_C2 {qid : PyStr} {names types : List PyStr}
    {table : List (List PyStr)} {c : Cursor} {r : List PyStr}
    (hinv : WinInv qid names types table c)
    (hr : table.get? c.rownumber.toNat = some r) :
    (((c.scroll 0 (toPyStr "relative")).2.fetchone).1 =
        .ok (some (parsedRow types r))) ∧
    (((c.scroll c.rownumber (toPyStr "absolute")).2.fetchone).1 =
        .ok (some (parsedRow types r))) := by
  have key : ∀ (v : Int) (mode : PyStr),
      mode = toPyStr "relative" ∨ mode = toPyStr "absolute" →
      (if mode = toPyStr "relative" then v + c.rownumber else v) =
        c.rownumber →
      ((c.scroll v mode).2.fetchone).1 = .ok (some (parsedRow types r)) := by
    intro v mode hmode htv
    obtain ⟨conn, L, hconn, hreply, hqid, hrowcount, harr, hexec, hdesc,
      hnamlen, htyp1, hq, htable, hoff0, hoffrn, hrnwin, hwinR, hrows⟩ := hinv
    have hrn0 : 0 ≤ c.rownumber := le_trans hoff0 hoffrn
    have hlt : c.rownumber.toNat < table.length := by
      rcases List.get?_eq_some.mp hr with ⟨h, -⟩
      omega
    have hsc := scroll_ok hconn hreply hqid hrowcount hexec hq hdesc hnamlen
      htyp1 htable v mode c.rownumber hmode htv.symm (by omega)
    rw [hsc]
    dsimp only
    have hinv' : WinInv qid names types table ({ c with
        offset := c.rownumber
        connection := some {conn with log := conn.log ++
          [xexportCmd (.qstr qid) c.rownumber
            (min (table.length : Int) (c.rownumber + c.arraysize) -
              c.rownumber)]}
        rows := (sliceClip table c.rownumber
          (min (table.length : Int) (c.rownumber + c.arraysize))).map
            (parsedRow types) }) :=
      ⟨{conn with log := conn.log ++
          [xexportCmd (.qstr qid) c.rownumber
            (min (table.length : Int) (c.rownumber + c.arraysize) -
              c.rownumber)]},
        (min (table.length : Int) (c.rownumber + c.arraysize)).toNat -
          c.rownumber.toNat,
        rfl, hreply, hqid, hrowcount, harr, hexec, hdesc, hnamlen, htyp1,
        hq, htable, by dsimp only; omega, by dsimp only; omega,
        by dsimp only; omega, by dsimp only; omega,
        by dsimp only; rw [sliceClip_window]⟩
    obtain ⟨c'', hfe, -, -, -, -, -⟩ := fetchone_at hinv' hr
    rw [hfe]
  exact ⟨key 0 (toPyStr "relative") (Or.inl rfl)
      (by rw [if_pos rfl]; omega),
    key c.rownumber (toPyStr "absolute") (Or.inr rfl)
      (by rw [if_neg (by decide)])⟩

/-- Witness for C2 at the four-row, one-column table with page size
`3`, at logical position `0`. -/
theorem claim_C2_witness :
    (((ex1Cursor.scroll 0 (toPyStr "relative")).2.fetchone).1 =
        .ok (some (parsedRow [toPyStr "int"] [toPyStr "r0"]))) ∧
    (((ex1Cursor.scroll ex1Cursor.rownumber (toPyStr "absolute")).2.fetchone).1 =
        .ok (some (parsedRow [toPyStr "int"] [toPyStr "r0"]))) :=
  claim_C2
    ((execute_WinInv rfl rfl rfl (by decide) (by decide) (by decide)
      (by decide) (by decide) (by decide) (by decide) (by decide)).1)
    (by decide)

/-- C3: after `close()` the cursor's connection reference is released,
yet a subsequent `fetchone` still succeeds and returns buffered data —
contradicting the claim that every operation on a closed cursor fails
(`close` clears only `connection`; the fetch guards never consult it
while the requested row is in the buffered window). -/
theorem claim_C3 :
    exCursor.close.connection = none ∧
    (exCursor.close.fetchone).1 =
      .ok (some (parsedRow exTypes [toPyStr "1", toPyStr "a"])) :=
  ⟨rfl, rfl⟩

/-- C4 counterexample: after an update statement (no tabular result),
`fetchmany()` returns an empty list instead of raising — `fetchmany`
lacks the `query_id == -1` guard present in `fetchone`/`fetchall`. -/
theorem claim_C4_counterexample :
    (updCursor.fetchmany .none).1 = .ok ([] : List Row) := rfl

/-- C4 (amended): on a cursor whose last statement produced no result
set, `fetchone` and `fetchall` raise the "query didn't result in a
resultset" usage error (appending it to the message log).  `fetchmany`
lacks that guard, and never raises the usage error: when the position
is not below `rowcount` (an update that affected no rows) it returns
an empty list, and when rows remain (an update that affected `42`
rows) it proceeds to page with the cleared `query_id`, issuing
`Xexport -1 0 42` to the connection, and raises the resulting server
error instead. -/
theorem claim_C4 {c : Cursor}
    (hexec : executedTruthy c.executed = true)
    (hq : c.query_id = .qint (-1)) :
    c.fetchone = (.error (.programmingError,
        toPyStr "query didn't result in a resultset"),
      {c with messages := c.messages ++ [(.programmingError,
        toPyStr "query didn't result in a resultset")]}) ∧
    c.fetchall = (.error (.programmingError,
        toPyStr "query didn't result in a resultset"),
      {c with messages := c.messages ++ [(.programmingError,
        toPyStr "query didn't result in a resultset")]}) ∧
    (c.rowcount ≤ c.rownumber → (c.fetchmany .none).1 = .ok []) ∧
    ((upd42Cursor.fetchmany .none).1 =
        .error (.programmingError, toPyStr "export error") ∧
      (upd42Cursor.fetchmany .none).2.connection =
        some {upd42Conn with log := [xexportCmd (.qint (-1)) 0 42]}) := by
  refine ⟨?_, ?_, ?_, rfl, rfl⟩
  · unfold Cursor.fetchone
    rw [if_neg (by simp [hexec]), if_pos hq]
    rfl
  · unfold Cursor.fetchall
    rw [if_neg (by simp [hexec]), if_pos hq]
    rfl
  · intro hge
    unfold Cursor.fetchmany
    rw [if_neg (by simp [hexec]), if_pos (show c.rownumber ≥ c.rowcount from hge)]

/-- Witness for C4 at the cursor produced by the zero-row update
statement. -/
theorem claim_C4_witness :
    updCursor.fetchone = (.error (.programmingError,
        toPyStr "query didn't result in a resultset"),
      {updCursor with messages := updCursor.messages ++ [(.programmingError,
        toPyStr "query didn't result in a resultset")]}) ∧
    updCursor.fetchall = (.error (.programmingError,
        toPyStr "query didn't result in a resultset"),
      {updCursor with messages := updCursor.messages ++ [(.programmingError,
        toPyStr "query didn't result in a resultset")]}) ∧
    (updCursor.rowcount ≤ updCursor.rownumber →
      (updCursor.fetchmany .none).1 = .ok []) ∧
    ((upd42Cursor.fetchmany .none).1 =
        .error (.programmingError, toPyStr "export error") ∧
      (upd42Cursor.fetchmany .none).2.connection =
        some {upd42Conn with log := [xexportCmd (.qint (-1)) 0 42]}) :=
  claim_C4 (by decide) (by decide)

/-- For non-negative bounds, Python slicing is take-then-drop. -/
theorem pySlice_nonneg {α : Type} (l : List α) {a b : Int}
    (ha : 0 ≤ a) (hb : 0 ≤ b) :
    pySlice l a b = (l.take b.toNat).drop a.toNat := by
  unfold pySlice
  dsimp only
  rw [if_neg (not_lt.mpr ha), if_neg (not_lt.mpr hb)]
  have ht : l.take (min b (l.length : Int)).toNat = l.take b.toNat :=
    List.take_eq_take.mpr (by omega)
  rw [ht]
  rcases le_or_lt a (l.length : Int) with h | h
  · rw [min_eq_left h]
  · rw [List.drop_eq_nil_of_le
      (by simp only [List.length_take]; omega),
      List.drop_eq_nil_of_le (by simp only [List.length_take]; omega)]

/-- Two adjacent mapped segments of a list concatenate to one mapped
segment. -/
theorem take_seg_append {α β : Type} (f : α → β) (X : List α) (a b : Nat) :
    (X.take a).map f ++ ((X.drop a).take b).map f = (X.take (a + b)).map f := by
  rw [List.take_add, List.map_append]


/-- The `while (end > self.rownumber) and self.nextset():` loop of
`fetchmany`: starting with the row position at the window boundary (or
at the target), it accumulates exactly the logical rows up to the
target position `e` and leaves the position at `e`. -/
theorem fetchmanyLoop_run {qid : PyStr} {names types : List PyStr}
    {table : List (List PyStr)} :
    ∀ (fuel : Nat) (e : Int) (acc : List Row) (c : Cursor),
      WinInv qid names types table c →
      c.rownumber = min e (c.offset + (c.rows.length : Int)) →
      e ≤ (table.length : Int) →
      (e - c.rownumber).toNat < fuel →
      ∃ c', Cursor.fetchmanyLoop fuel e acc c =
        (.ok (acc ++ ((table.drop c.rownumber.toNat).take
          (e - c.rownumber).toNat).map (parsedRow types)), c') ∧
        c'.rownumber = max c.rownumber e ∧
        WinInv qid names types table c' := by
  intro fuel
  induction fuel with
  | zero =>
    intro e acc c hinv hrn hele hfuel
    exact absurd hfuel (by omega)
  | succ fuel ih =>
    intro e acc c hinv hrn hele hfuel
    have hinvK := hinv
    obtain ⟨conn, L, hconn, hreply, hqid, hrowcount, harr, hexec, hdesc,
      hnamlen, htyp1, hq, htable, hoff0, hoffrn, hrnwin, hwinR, hrows⟩ := hinv
    have hrowsLen : c.rows.length = L := by
      rw [hrows]
      simp only [List.length_map, List.length_take, List.length_drop]
      omega
    have hstep : Cursor.fetchmanyLoop (fuel + 1) e acc c =
        (if e > c.rownumber then
          match c.nextset with
          | (.error er, c') => (.error er, c')
          | (.ok false, c') => (.ok acc, c')
          | (.ok true, c') =>
            Cursor.fetchmanyLoop fuel e
              (acc ++ pySlice c'.rows (c'.rownumber - c'.offset)
                (e - c'.offset))
              {c' with rownumber := min e ((c'.rows.length : Int) + c'.offset)}
        else (.ok acc, c)) := rfl
    by_cases hcond : e > c.rownumber
    · have hrnoff : c.rownumber = c.offset + (c.rows.length : Int) := by
        omega
      have hlt : c.rownumber < (table.length : Int) := by omega
      have hnext := nextset_page hconn hreply hqid hrowcount hexec hq hdesc
        hnamlen htyp1 htable hlt
      rw [← hrnoff] at hnext
      have hrn0 : 0 ≤ c.rownumber := le_trans hoff0 hoffrn
      have hstep2 : Cursor.fetchmanyLoop (fuel + 1) e acc c =
          Cursor.fetchmanyLoop fuel e
            (acc ++ pySlice
              ((sliceClip table c.rownumber
                (min (table.length : Int) (c.rownumber + c.arraysize))).map
                  (parsedRow types))
              (c.rownumber - c.rownumber) (e - c.rownumber))
            { c with
              connection := some {conn with log := conn.log ++
                [xexportCmd (.qstr qid) c.rownumber
                  (min (table.length : Int) (c.rownumber + c.arraysize) -
                    c.rownumber)]}
              offset := c.rownumber
              rows := (sliceClip table c.rownumber
                (min (table.length : Int) (c.rownumber + c.arraysize))).map
                  (parsedRow types)
              rownumber := min e
                ((((sliceClip table c.rownumber
                  (min (table.length : Int) (c.rownumber + c.arraysize))).map
                    (parsedRow types)).length : Int) + c.rownumber) } := by
        rw [hstep, if_pos hcond, hnext]
      have hlenN : ((sliceClip table c.rownumber
          (min (table.length : Int) (c.rownumber + c.arraysize))).map
            (parsedRow types)).length =
          (min (table.length : Int) (c.rownumber + c.arraysize)).toNat -
            c.rownumber.toNat := by
        simp only [sliceClip, List.length_map, List.length_drop,
          List.length_take]
        omega
      have hinv2 : WinInv qid names types table ({ c with
          connection := some {conn with log := conn.log ++
            [xexportCmd (.qstr qid) c.rownumber
              (min (table.length : Int) (c.rownumber + c.arraysize) -
                c.rownumber)]}
          offset := c.rownumber
          rows := (sliceClip table c.rownumber
            (min (table.length : Int) (c.rownumber + c.arraysize))).map
              (parsedRow types)
          rownumber := min e
            ((((sliceClip table c.rownumber
              (min (table.length : Int) (c.rownumber + c.arraysize))).map
                (parsedRow types)).length : Int) + c.rownumber) }) :=
        ⟨{conn with log := conn.log ++
            [xexportCmd (.qstr qid) c.rownumber
              (min (table.length : Int) (c.rownumber + c.arraysize) -
                c.rownumber)]},
          (min (table.length : Int) (c.rownumber + c.arraysize)).toNat -
            c.rownumber.toNat,
          rfl, hreply, hqid, hrowcount, harr, hexec, hdesc, hnamlen, htyp1,
          hq, htable, by dsimp only; omega,
          by dsimp only; rw [hlenN]; omega,
          by dsimp only; rw [hlenN]; omega,
          by dsimp only; omega,
          by dsimp only; rw [sliceClip_window]⟩
      have hrn2v : ({ c with
          connection := some {conn with log := conn.log ++
            [xexportCmd (.qstr qid) c.rownumber
              (min (table.length : Int) (c.rownumber + c.arraysize) -
                c.rownumber)]}
          offset := c.rownumber
          rows := (sliceClip table c.rownumber
            (min (table.length : Int) (c.rownumber + c.arraysize))).map
              (parsedRow types)
          rownumber := min e
            ((((sliceClip table c.rownumber
              (min (table.length : Int) (c.rownumber + c.arraysize))).map
                (parsedRow types)).length : Int) + c.rownumber) } :
            Cursor).rownumber =
          min e (min (table.length : Int) (c.rownumber + c.arraysize)) := by
        dsimp only
        rw [hlenN]
        omega
      have hfuel2 : (e - min e (min (table.length : Int)
          (c.rownumber + c.arraysize))).toNat < fuel := by
        have hm1 : c.rownumber + 1 ≤
            min (table.length : Int) (c.rownumber + c.arraysize) := by omega
        have hm2 : c.rownumber + 1 ≤
            min e (min (table.length : Int) (c.rownumber + c.arraysize)) := by
          omega
        omega
      obtain ⟨c'', hrun, hrn'', hinv''⟩ := ih e
        (acc ++ pySlice
          ((sliceClip table c.rownumber
            (min (table.length : Int) (c.rownumber + c.arraysize))).map
              (parsedRow types))
          (c.rownumber - c.rownumber) (e - c.rownumber))
        _ hinv2
        (by rw [hrn2v]; dsimp only; rw [hlenN]; omega)
        hele
        (by rw [hrn2v]; exact hfuel2)
      rw [hrn2v] at hrun hrn''
      refine ⟨c'', ?_, ?_, hinv''⟩
      · rw [hstep2, hrun]
        congr 2
        rw [List.append_assoc]
        congr 1
        rw [sub_self, pySlice_nonneg _ (le_refl 0) (by omega),
          Int.toNat_zero, List.drop_zero]
        rw [sliceClip_window, ← List.map_take, List.take_take]
        have hdd : table.drop (min e (min (table.length : Int)
            (c.rownumber + c.arraysize))).toNat =
            (table.drop c.rownumber.toNat).drop
              ((min e (min (table.length : Int)
                (c.rownumber + c.arraysize))).toNat - c.rownumber.toNat) := by
          rw [List.drop_drop]
          congr 1
          omega
        rw [hdd]
        rw [show min (e - c.rownumber).toNat
            ((min (table.length : Int) (c.rownumber + c.arraysize)).toNat -
              c.rownumber.toNat) =
            (min e (min (table.length : Int)
              (c.rownumber + c.arraysize))).toNat - c.rownumber.toNat from
          by omega]
        rw [take_seg_append]
        congr 1
        refine List.take_eq_take.mpr ?_
        have hm2 : min e (min (table.length : Int)
            (c.rownumber + c.arraysize)) ≤ e := min_le_left _ _
        have hm3 : c.rownumber ≤ min e (min (table.length : Int)
            (c.rownumber + c.arraysize)) :=
          le_min (by omega) (le_min (by omega) (by omega))
        omega
      · rw [hrn'']
        omega
    · have hrne : c.rownumber = e := by omega
      refine ⟨c, ?_, by omega, hinvK⟩
      rw [hstep, if_neg hcond]
      simp only [hrne, sub_self, Int.toNat_zero, List.take_zero,
        List.map_nil, List.append_nil]

/-- C5 counterexample: `fetchmany(0)` on a fresh four-row result does
not return `min(0, R-k) = 0` rows — the `size or self.arraysize`
fallback treats `0` like "absent" and returns a full page of
`arraysize = 2` rows. -/
theorem claim_C5_counterexample :
    (exCursor.fetchmany (some 0)).1 =
      .ok [parsedRow exTypes [toPyStr "1", toPyStr "a"],
           parsedRow exTypes [toPyStr "2", toPyStr "b"]] ∧
    [parsedRow exTypes [toPyStr "1", toPyStr "a"],
     parsedRow exTypes [toPyStr "2", toPyStr "b"]].length ≠ min 0 exTable.length :=
  ⟨rfl, by decide⟩

/-- C5 (amended): for a requested count `n ≥ 1`, `fetchmany(n)` on a
live tabular result with `k` rows consumed returns exactly
`min(n, R-k)` rows (the segment of the logical table starting at `k`)
and advances the position to `min(k+n, R)`; when the position has
reached `R` it returns an empty list.  The count `0` is excluded: it
falls back to `arraysize` (see the counterexample). -/
theorem claim_C5 {qid : PyStr} {names types : List PyStr}
    {table : List (List PyStr)} {c : Cursor} {n : Int}
    (hinv : WinInv qid names types table c) (hn : 1 ≤ n) :
    (c.rownumber < c.rowcount →
      ∃ c', c.fetchmany (some n) =
        (.ok (((table.drop c.rownumber.toNat).take n.toNat).map
          (parsedRow types)), c') ∧
        c'.rownumber = min (c.rownumber + n) (table.length : Int) ∧
        WinInv qid names types table c') ∧
    (c.rowcount ≤ c.rownumber → c.fetchmany (some n) = (.ok [], c)) := by
  have hinvK := hinv
  obtain ⟨conn, L, hconn, hreply, hqid, hrowcount, harr, hexec, hdesc,
    hnamlen, htyp1, hq, htable, hoff0, hoffrn, hrnwin, hwinR, hrows⟩ := hinv
  have hrowsLen : c.rows.length = L := by
    rw [hrows]
    simp only [List.length_map, List.length_take, List.length_drop]
    omega
  refine ⟨?_, ?_⟩
  · intro hlt'
    have hltL : c.rownumber < (table.length : Int) := by omega
    have hrn0 : 0 ≤ c.rownumber := le_trans hoff0 hoffrn
    have hfm : c.fetchmany (some n) =
        Cursor.fetchmanyLoop (c.rowcount.toNat + 1)
          (min (c.rownumber + n) c.rowcount)
          (pySlice c.rows (c.rownumber - c.offset)
            (min (c.rownumber + n) c.rowcount - c.offset))
          {c with rownumber := (min (min (c.rownumber + n) c.rowcount)
            ((c.rows.length : Int) + c.offset))} := by
      unfold Cursor.fetchmany
      rw [if_neg (by simp [hexec]),
        if_neg (show ¬(c.rownumber ≥ c.rowcount) from by omega)]
      dsimp only
      rw [if_pos (show n ≠ 0 from by omega)]
    rw [hfm, hrowcount, hrowsLen]
    have hpre : pySlice c.rows (c.rownumber - c.offset)
        (min (c.rownumber + n) (table.length : Int) - c.offset) =
        ((table.drop c.rownumber.toNat).take
          ((min (min (c.rownumber + n) (table.length : Int))
            (c.offset + (L : Int))).toNat - c.rownumber.toNat)).map
          (parsedRow types) := by
      rw [hrows, pySlice_nonneg _ (by omega) (by omega)]
      rw [← List.map_take, ← List.map_drop]
      rw [List.take_take, List.drop_take, List.drop_drop]
      rw [show c.offset.toNat + (c.rownumber - c.offset).toNat =
        c.rownumber.toNat from by omega]
      rw [show min (min (c.rownumber + n) (table.length : Int) -
          c.offset).toNat L - (c.rownumber - c.offset).toNat =
        (min (min (c.rownumber + n) (table.length : Int))
          (c.offset + (L : Int))).toNat - c.rownumber.toNat from by omega]
    rw [hpre]
    have hinv1 : WinInv qid names types table ({c with
        rowcount := (table.length : Int)
        rownumber := (min (min (c.rownumber + n) (table.length : Int))
          ((L : Int) + c.offset))}) :=
      ⟨conn, L, hconn, hreply, hqid, rfl, harr, hexec, hdesc,
        hnamlen, htyp1, hq, htable, hoff0,
        by dsimp only; omega, by dsimp only; omega, hwinR, hrows⟩
    have hrn1v : ({c with
        rowcount := (table.length : Int)
        rownumber := (min (min (c.rownumber + n) (table.length : Int))
          ((L : Int) + c.offset))} : Cursor).rownumber =
        min (min (c.rownumber + n) (table.length : Int))
          (c.offset + (L : Int)) := by
      dsimp only
      omega
    obtain ⟨c', hrun, hrn', hinv'⟩ := fetchmanyLoop_run
      ((table.length : Int).toNat + 1)
      (min (c.rownumber + n) (table.length : Int))
      (((table.drop c.rownumber.toNat).take
        ((min (min (c.rownumber + n) (table.length : Int))
          (c.offset + (L : Int))).toNat - c.rownumber.toNat)).map
        (parsedRow types))
      _ hinv1
      (by rw [hrn1v]; dsimp only; rw [hrowsLen])
      (min_le_right _ _)
      (by rw [hrn1v]; omega)
    rw [hrn1v] at hrun hrn'
    rw [hrun]
    refine ⟨c', ?_, ?_, hinv'⟩
    · congr 2
      have hdd : table.drop (min (min (c.rownumber + n)
          (table.length : Int)) (c.offset + (L : Int))).toNat =
          (table.drop c.rownumber.toNat).drop
            ((min (min (c.rownumber + n) (table.length : Int))
              (c.offset + (L : Int))).toNat - c.rownumber.toNat) := by
        rw [List.drop_drop]
        congr 1
        omega
      rw [hdd, take_seg_append]
      congr 1
      refine List.take_eq_take.mpr ?_
      simp only [List.length_drop]
      have hm2 : min (min (c.rownumber + n) (table.length : Int))
          (c.offset + (L : Int)) ≤ min (c.rownumber + n)
            (table.length : Int) := min_le_left _ _
      have hm3 : c.rownumber ≤ min (min (c.rownumber + n)
          (table.length : Int)) (c.offset + (L : Int)) :=
        le_min (le_min (by omega) (by omega)) (by omega)
      omega
    · rw [hrn', max_eq_right (min_le_left _ _)]
  · intro hge
    unfold Cursor.fetchmany
    rw [if_neg (by simp [hexec]),
      if_pos (show c.rownumber ≥ c.rowcount from hge)]

/-- Witness for C5 on the four-row table with page size `2`,
requesting `3` rows from the start. -/
theorem claim_C5_witness :
    (exCursor.rownumber < exCursor.rowcount →
      ∃ c', exCursor.fetchmany (some 3) =
        (.ok (((exTable.drop exCursor.rownumber.toNat).take
          (3 : Int).toNat).map (parsedRow exTypes)), c') ∧
        c'.rownumber = min (exCursor.rownumber + 3) (exTable.length : Int) ∧
        WinInv (toPyStr "7") exNames exTypes exTable c') ∧
    (exCursor.rowcount ≤ exCursor.rownumber →
      exCursor.fetchmany (some 3) = (.ok [], exCursor)) :=
  claim_C5
    ((execute_WinInv rfl rfl rfl (by decide) (by decide) (by decide)
      (by decide) (by decide) (by decide) (by decide) (by decide)).1)
    (by decide)

/-- C6: a response block that reaches its end without an
end-of-response prompt and without an error line — even one whose
result-set header, column headers and tuples are all well formed —
makes decoding fail with the "Unknown state" `InterfaceError`, logged
to the message list; no value is returned. -/
theorem claim_C6 {c : Cursor} (qid : PyStr) (names types : List PyStr)
    (table : List (List PyStr)) (rs : Int)
    (hq : goodQid qid)
    (hnames : ∀ s ∈ names, goodHdrVal s)
    (htypes : ∀ s ∈ types, goodHdrVal s)
    (hlen : names.length = types.length)
    (h1 : 1 ≤ types.length)
    (htable : goodTable types.length table) :
    c.storeResult (mkExecBlockNoPrompt qid names types table rs) =
      (.error (.interfaceError, toPyStr "Unknown state, " ++
          mkExecBlockNoPrompt qid names types table rs),
        { c with
          query_id := .qstr qid
          rowcount := (table.length : Int)
          description := some (mkDesc names types)
          offset := 0
          lastrowid := none
          rows := (sliceClip table 0 rs).map (parsedRow types)
          messages := c.messages ++ [(.interfaceError,
            toPyStr "Unknown state, " ++
              mkExecBlockNoPrompt qid names types table rs)] }) := by
  obtain ⟨hqne, hqws, hqnl⟩ := hq
  have hnNe : names ≠ [] := by
    intro h
    rw [h] at hlen
    simp only [List.length_nil] at hlen
    omega
  have hnamesNoComma : ∀ s ∈ names, ',' ∉ s := fun s hs => (hnames s hs).2.1
  have hnamesWs : ∀ s ∈ names, wsFree s := fun s hs => (hnames s hs).2.2.2
  have htNe : types ≠ [] := by
    intro h; rw [h] at h1; simp at h1
  have htypesNoComma : ∀ s ∈ types, ',' ∉ s := fun s hs => (htypes s hs).2.1
  have htypesWs : ∀ s ∈ types, wsFree s := fun s hs => (htypes s hs).2.2.2
  have hpageWf : ∀ r ∈ sliceClip table 0 rs, r ≠ [] ∧ (∀ f ∈ r, ',' ∉ f ∧ '\n' ∉ f) ∧
      r.length = (mkDesc names types).length := by
    intro r hr
    obtain ⟨hrl, hrf⟩ := htable r (sliceClip_subset hr)
    refine ⟨?_, fun f hf => ⟨(hrf f hf).1, (hrf f hf).2⟩, ?_⟩
    · intro hnil
      rw [hnil] at hrl
      simp only [List.length_nil] at hrl
      omega
    · rw [hrl, mkDesc_length, hlen, Nat.min_self]
  unfold mkExecBlockNoPrompt Cursor.storeResult
  rw [pySplitOn_join (show (toPyStr "\n").head? = some '\n' from rfl) _
    (List.cons_ne_nil _ _)]
  swap
  · intro l hl
    rcases List.mem_cons.mp hl with rfl | hl
    · intro hmem
      rcases List.mem_append.mp hmem with h2 | h2
      · rcases List.mem_append.mp h2 with h3 | h3
        · rcases List.mem_append.mp h3 with h4 | h4
          · rcases List.mem_append.mp h4 with h5 | h5
            · rcases List.mem_append.mp h5 with h6 | h6
              · rcases List.mem_append.mp h6 with h7 | h7
                · rcases List.mem_append.mp h7 with h8 | h8
                  · exact absurd h8 (by decide)
                  · exact hqnl h8
                · exact absurd h7 (by decide)
              · exact natToPyStr_no_nl _ h6
            · exact absurd h5 (by decide)
          · exact natToPyStr_no_nl _ h4
        · exact absurd h3 (by decide)
      · exact natToPyStr_no_nl _ h2
    rcases List.mem_cons.mp hl with rfl | hl
    · intro hmem
      rcases List.mem_cons.mp hmem with h2 | h2
      · exact absurd h2 (by decide)
      rcases List.mem_append.mp h2 with h3 | h3
      · exact pyJoin_not_mem (fun p hp => (hnames p hp).1) (by decide) h3
      rcases List.mem_cons.mp h3 with h4 | h4
      · exact absurd h4 (by decide)
      · exact absurd h4 (by decide)
    rcases List.mem_cons.mp hl with rfl | hl
    · intro hmem
      rcases List.mem_cons.mp hmem with h2 | h2
      · exact absurd h2 (by decide)
      rcases List.mem_append.mp h2 with h3 | h3
      · exact pyJoin_not_mem (fun p hp => (htypes p hp).1) (by decide) h3
      rcases List.mem_cons.mp h3 with h4 | h4
      · exact absurd h4 (by decide)
      · exact absurd h4 (by decide)
    · obtain ⟨r, hr, rfl⟩ := List.mem_map.mp hl
      exact tupleLine_no_nl (fun f hf => ((hpageWf r hr).2.1 f hf).2)
  · rw [qtableLine_shape]
    have htoks : ∀ t ∈ [qid, natToPyStr table.length, natToPyStr names.length,
        natToPyStr (sliceClip table 0 rs).length], t ≠ [] ∧ wsFree t := by
      intro t ht
      rcases List.mem_cons.mp ht with rfl | ht
      · exact ⟨hqne, hqws⟩
      rcases List.mem_cons.mp ht with rfl | ht
      · exact ⟨natToPyStr_ne_nil _, natToPyStr_wsFree _⟩
      rcases List.mem_cons.mp ht with rfl | ht
      · exact ⟨natToPyStr_ne_nil _, natToPyStr_wsFree _⟩
      rcases List.mem_cons.mp ht with rfl | ht
      · exact ⟨natToPyStr_ne_nil _, natToPyStr_wsFree _⟩
      · simp at ht
    have hsp : (pySplitWs (' ' :: pyJoin [' '] [qid, natToPyStr table.length,
        natToPyStr names.length, natToPyStr (sliceClip table 0 rs).length])).take 4 =
        [qid, natToPyStr table.length, natToPyStr names.length,
          natToPyStr (sliceClip table 0 rs).length] := by
      rw [pySplitWs_cons_space, pySplitWs_join (by simp) htoks]
      rfl
    rw [storeLines_qtable _ _ _ _ _ hsp (pyInt_natToPyStr _) (pyInt_natToPyStr _)]
    simp only [Int.toNat_ofNat]
    rw [show headerLine names (toPyStr "name") =
      '%' :: (pyJoin (toPyStr ",") names ++ '#' :: toPyStr "name") from rfl]
    have hsplitN := headerBody_split
      (show ('#' : Char) ∉ pyJoin (toPyStr ",") names from
        pyJoin_not_mem (fun p hp => (hnames p hp).2.2.1) (by decide))
      (show ('#' : Char) ∉ toPyStr "name" from by decide)
    have hvalsN : (pySplitOn (toPyStr ",") (pyJoin (toPyStr ",") names)).map pyStrip =
        names := by
      rw [pySplitOn_join (show (toPyStr ",").head? = some ',' from rfl) names hnNe hnamesNoComma,
        map_pyStrip_id hnamesWs]
    have hupdN : ∀ hv : HdrVars, headerUpdate hv (pyStrip (toPyStr "name"))
        ((pySplitOn (toPyStr ",") (pyJoin (toPyStr ",") names)).map pyStrip) =
        .ok {hv with column_name := .vlist (names.map .s)} := by
      intro hv
      rw [hvalsN, show pyStrip (toPyStr "name") = toPyStr "name" from rfl]
      exact headerUpdate_name hv names
    rw [storeLines_header _ _ _ _ _ hsplitN (hupdN _)
      (pyZipDesc_vlist7 (names.map .s) (List.replicate names.length .nil)
        (List.replicate names.length .nil) (List.replicate names.length .nil)
        (List.replicate names.length .nil) (List.replicate names.length .nil)
        (List.replicate names.length .nil))]
    rw [show headerLine types (toPyStr "type") =
      '%' :: (pyJoin (toPyStr ",") types ++ '#' :: toPyStr "type") from rfl]
    have hsplitT := headerBody_split
      (show ('#' : Char) ∉ pyJoin (toPyStr ",") types from
        pyJoin_not_mem (fun p hp => (htypes p hp).2.2.1) (by decide))
      (show ('#' : Char) ∉ toPyStr "type" from by decide)
    have hvalsT : (pySplitOn (toPyStr ",") (pyJoin (toPyStr ",") types)).map pyStrip =
        types := by
      rw [pySplitOn_join (show (toPyStr ",").head? = some ',' from rfl) types htNe htypesNoComma,
        map_pyStrip_id htypesWs]
    have hupdT : ∀ hv : HdrVars, headerUpdate hv (pyStrip (toPyStr "type"))
        ((pySplitOn (toPyStr ",") (pyJoin (toPyStr ",") types)).map pyStrip) =
        .ok {hv with type_ := .vlist (types.map .s)} := by
      intro hv
      rw [hvalsT, show pyStrip (toPyStr "type") = toPyStr "type" from rfl]
      exact headerUpdate_type hv types
    rw [storeLines_header _ _ _ _ _ hsplitT (hupdT _)
      (zipDesc_final names types names.length hlen rfl)]
    rw [show (sliceClip table 0 rs).map tupleLine =
      (sliceClip table 0 rs).map tupleLine ++ ([] : List PyStr) from
      (List.append_nil _).symm]
    rw [storeLines_tupleRun _ _ (sliceClip table 0 rs) _ _ rfl
      (fun r hr => ⟨(hpageWf r hr).1, fun f hf => ((hpageWf r hr).2.1 f hf).1,
        (hpageWf r hr).2.2⟩)
      mkDesc_entry_len]
    rw [storeLines_nil]
    have hcr : ∀ fl, convRow (mkDesc names types) fl = parsedRow types fl :=
      fun fl => convRow_mkDesc fl names types hlen
    have hmapcr : List.map (convRow (mkDesc names types)) (sliceClip table 0 rs) =
        List.map (parsedRow types) (sliceClip table 0 rs) :=
      List.map_congr_left (fun fl _ => hcr fl)
    rw [hmapcr]
    rfl

/-- Witness for C6 on the example table's response block with the
prompt removed. -/
theorem claim_C6_witness :
    (Cursor.init exConn).storeResult
        (mkExecBlockNoPrompt (toPyStr "7") exNames exTypes exTable 2) =
      (.error (.interfaceError, toPyStr "Unknown state, " ++
          mkExecBlockNoPrompt (toPyStr "7") exNames exTypes exTable 2),
        { Cursor.init exConn with
          query_id := .qstr (toPyStr "7")
          rowcount := (exTable.length : Int)
          description := some (mkDesc exNames exTypes)
          offset := 0
          lastrowid := none
          rows := (sliceClip exTable 0 2).map (parsedRow exTypes)
          messages := (Cursor.init exConn).messages ++ [(.interfaceError,
            toPyStr "Unknown state, " ++
              mkExecBlockNoPrompt (toPyStr "7") exNames exTypes exTable 2)] }) :=
  claim_C6 (toPyStr "7") exNames exTypes exTable 2 (by decide) (by decide)
    (by decide) (by decide) (by decide) (by decide)

/-- C7 counterexample: a block consisting of a line with an
unrecognized prefix (and a prompt) decodes successfully with the
cursor unchanged — the line is silently skipped, not a decode
error. -/
theorem claim_C7_counterexample :
    (Cursor.init exConn).storeResult (toPyStr "Zgarbage\n") =
      (.ok (), Cursor.init exConn) := rfl

/-- C7 (amended): a line whose prefix matches none of the recognized
event kinds, with no terminator or error line before it, is silently
skipped: decoding continues with the remaining lines exactly as if the
line were absent, and with a following prompt it succeeds with the
cursor unchanged (no decode error is raised). -/
theorem claim_C7 {line : PyStr} (block : PyStr) (c : Cursor) (hv : HdrVars)
    (rest : List PyStr) (h : unrecognizedLine line) :
    Cursor.storeLines block c hv (line :: rest) =
      Cursor.storeLines block c hv rest ∧
    Cursor.storeLines block c hv (line :: MSG_PROMPT :: rest) = (.ok (), c) := by
  refine ⟨storeLines_skip block c hv rest h, ?_⟩
  rw [storeLines_skip block c hv (MSG_PROMPT :: rest) h]
  exact storeLines_prompt block c hv rest

/-- Witness for C7 with the unrecognized line `Zgarbage`. -/
theorem claim_C7_witness :
    (Cursor.storeLines (toPyStr "") (Cursor.init exConn) {}
        [toPyStr "Zgarbage"] =
      Cursor.storeLines (toPyStr "") (Cursor.init exConn) {} []) ∧
    Cursor.storeLines (toPyStr "") (Cursor.init exConn) {}
        (toPyStr "Zgarbage" :: MSG_PROMPT :: []) = (.ok (), Cursor.init exConn) :=
  claim_C7 (toPyStr "") (Cursor.init exConn) {} [] (by decide)

/-- C8: a data-tuple line whose sliced field count differs from the
active column count always fails decoding with the row/header-mismatch
`InterfaceError`, logged to the message list, and aborts the whole
block — the remaining lines are ignored and the row is neither
truncated, padded, nor skipped. -/
theorem claim_C8 {c : Cursor} {desc : List (List PyScalar)} (block : PyStr)
    (hv : HdrVars) (fields : List PyStr) (rest : List PyStr)
    (hdesc : c.description = some desc)
    (hne : fields ≠ [])
    (hwf : ∀ f ∈ fields, ',' ∉ f)
    (hlen : fields.length ≠ desc.length) :
    Cursor.storeLines block c hv (tupleLine fields :: rest) =
      (.error (.interfaceError, toPyStr "length of row doesn't match header"),
        {c with messages := c.messages ++ [(.interfaceError,
          toPyStr "length of row doesn't match header")]}) := by
  have hpt : c.parseTuple (tupleLine fields) =
      (.error (.interfaceError, toPyStr "length of row doesn't match header"),
        {c with messages := c.messages ++ [(.interfaceError,
          toPyStr "length of row doesn't match header")]}) := by
    unfold Cursor.parseTuple
    have hdrop : ((tupleLine fields).drop 1).dropLast =
        pyJoin (toPyStr ",\t") fields := by
      show (pyJoin (toPyStr ",\t") fields ++ [']']).dropLast = _
      exact List.dropLast_concat
    rw [hdrop, pySplitOn_join (show (toPyStr ",\t").head? = some ',' from rfl)
      fields hne hwf, hdesc]
    dsimp only [Cursor.exceptionHandler]
    rw [if_neg hlen, hdesc]
  rw [show tupleLine fields =
    '[' :: (pyJoin (toPyStr ",\t") fields ++ [']']) from rfl]
  exact storeLines_tuple_err block hv _ rest hpt

/-- Witness for C8: a one-field tuple against the two-column example
description. -/
theorem claim_C8_witness :
    Cursor.storeLines (toPyStr "") exCursor {}
        (tupleLine [toPyStr "9"] :: [toPyStr "ignored"]) =
      (.error (.interfaceError, toPyStr "length of row doesn't match header"),
        {exCursor with messages := exCursor.messages ++ [(.interfaceError,
          toPyStr "length of row doesn't match header")]}) :=
  claim_C8 (toPyStr "") {} [toPyStr "9"] [toPyStr "ignored"]
    (show exCursor.description = some (mkDesc exNames exTypes) from rfl)
    (by decide) (by decide) (by decide)

/-- A Python-runtime fault is never one of the deliberately raised
(handled) exception classes. -/
theorem not_handled_of_runtimeFault {α : Type} {k msg m : PyStr}
    {cls : ExcClass} {x y : Cursor}
    (h : ((.error (.runtimeFault k, msg), x) : Except Err α × Cursor) =
      (.error (cls, m), y))
    (hh : isHandled cls = true) : False := by
  simp only [Prod.mk.injEq, Except.error.injEq] at h
  obtain ⟨⟨hcls, -⟩, -⟩ := h
  rw [← hcls] at hh
  simp [isHandled] at hh

/-- Every handled error raised by `__parse_tuple` is appended to the
message log of the returned cursor as its last entry. -/
theorem parseTuple_logs {c c' : Cursor} {line : PyStr} {cls : ExcClass}
    {m : PyStr}
    (h : c.parseTuple line = (.error (cls, m), c'))
    (hh : isHandled cls = true) :
    c'.messages.getLast? = some (cls, m) := by
  unfold Cursor.parseTuple at h
  dsimp only at h
  split at h
  · exact (not_handled_of_runtimeFault h hh).elim
  · split at h
    · split at h
      · simp at h
      · exact (not_handled_of_runtimeFault h hh).elim
    · simp only [Cursor.exceptionHandler] at h
      simp only [Prod.mk.injEq, Except.error.injEq] at h
      obtain ⟨⟨hcls, hm⟩, hc'⟩ := h
      subst hcls
      subst hm
      subst hc'
      exact List.getLast?_concat _

/-- Every handled error raised while decoding a block is appended to
the returned cursor's message log as its last entry. -/
theorem storeLines_logs (block : PyStr) :
    ∀ (lines : List PyStr) (c : Cursor) (hv : HdrVars) (cls : ExcClass)
      (m : PyStr) (c' : Cursor),
      Cursor.storeLines block c hv lines = (.error (cls, m), c') →
      isHandled cls = true →
      c'.messages.getLast? = some (cls, m) := by
  intro lines
  induction lines with
  | nil =>
    intro c hv cls m c' h hh
    rw [storeLines_nil] at h
    simp only [Prod.mk.injEq, Except.error.injEq] at h
    obtain ⟨⟨hcls, hm⟩, hc'⟩ := h
    subst hcls
    subst hm
    subst hc'
    exact List.getLast?_concat _
  | cons line rest ih =>
    intro c hv cls m c' h hh
    rw [Cursor.storeLines.eq_2] at h
    by_cases h1 : MSG_INFO.isPrefixOf line = true
    case pos =>
      rw [if_pos h1] at h
      exact ih _ _ _ _ _ h hh
    rw [if_neg h1] at h
    by_cases h2 : MSG_QTABLE.isPrefixOf line = true
    case pos =>
      rw [if_pos h2] at h
      split at h
      · dsimp only at h
        split at h
        · exact (not_handled_of_runtimeFault h hh).elim
        split at h
        · exact (not_handled_of_runtimeFault h hh).elim
        · exact ih _ _ _ _ _ h hh
      · exact (not_handled_of_runtimeFault h hh).elim
    rw [if_neg h2] at h
    by_cases h3 : MSG_HEADER.isPrefixOf line = true
    case pos =>
      rw [if_pos h3] at h
      split at h
      · dsimp only at h
        split at h
        · exact (not_handled_of_runtimeFault h hh).elim
        split at h
        · exact (not_handled_of_runtimeFault h hh).elim
        · exact ih _ _ _ _ _ h hh
      · exact (not_handled_of_runtimeFault h hh).elim
    rw [if_neg h3] at h
    by_cases h4 : MSG_TUPLE.isPrefixOf line = true
    case pos =>
      rw [if_pos h4] at h
      split at h
      · rename_i e c2 heq
        simp only [Prod.mk.injEq, Except.error.injEq] at h
        obtain ⟨he, hc'⟩ := h
        subst he
        subst hc'
        exact parseTuple_logs heq hh
      · exact ih _ _ _ _ _ h hh
    rw [if_neg h4] at h
    by_cases h5 : MSG_TUPLE_NOSLICE.isPrefixOf line = true
    case pos =>
      rw [if_pos h5] at h
      exact ih _ _ _ _ _ h hh
    rw [if_neg h5] at h
    by_cases h6 : MSG_QBLOCK.isPrefixOf line = true
    case pos =>
      rw [if_pos h6] at h
      exact ih _ _ _ _ _ h hh
    rw [if_neg h6] at h
    by_cases h7 : MSG_QSCHEMA.isPrefixOf line = true
    case pos =>
      rw [if_pos h7] at h
      exact ih _ _ _ _ _ h hh
    rw [if_neg h7] at h
    by_cases h8 : MSG_QUPDATE.isPrefixOf line = true
    case pos =>
      rw [if_pos h8] at h
      split at h
      · dsimp only at h
        split at h
        · exact (not_handled_of_runtimeFault h hh).elim
        split at h
        · exact (not_handled_of_runtimeFault h hh).elim
        · exact ih _ _ _ _ _ h hh
      · exact (not_handled_of_runtimeFault h hh).elim
    rw [if_neg h8] at h
    by_cases h9 : MSG_QTRANS.isPrefixOf line = true
    case pos =>
      rw [if_pos h9] at h
      exact ih _ _ _ _ _ h hh
    rw [if_neg h9] at h
    by_cases h10 : line = MSG_PROMPT
    case pos =>
      rw [if_pos h10] at h
      simp at h
    rw [if_neg h10] at h
    by_cases h11 : MSG_ERROR.isPrefixOf line = true
    case pos =>
      rw [if_pos h11] at h
      simp only [Cursor.exceptionHandler] at h
      simp only [Prod.mk.injEq, Except.error.injEq] at h
      obtain ⟨⟨hcls, hm⟩, hc'⟩ := h
      subst hcls
      subst hm
      subst hc'
      exact List.getLast?_concat _
    rw [if_neg h11] at h
    exact ih _ _ _ _ _ h hh

/-- Every handled error raised by `__store_result` is logged as the
last message of the returned cursor. -/
theorem storeResult_logs {c c' : Cursor} {block : PyStr} {cls : ExcClass}
    {m : PyStr}
    (h : c.storeResult block = (.error (cls, m), c'))
    (hh : isHandled cls = true) :
    c'.messages.getLast? = some (cls, m) :=
  storeLines_logs block (pySplitOn (toPyStr "\n") block) c {} cls m c' h hh

/-- Every handled error raised by `nextset` is logged as the last
message of the returned cursor. -/
theorem nextset_logs {c c' : Cursor} {cls : ExcClass} {m : PyStr}
    (h : c.nextset = (.error (cls, m), c'))
    (hh : isHandled cls = true) :
    c'.messages.getLast? = some (cls, m) := by
  unfold Cursor.nextset at h
  split at h
  · simp only [Cursor.exceptionHandler] at h
    simp only [Prod.mk.injEq, Except.error.injEq] at h
    obtain ⟨⟨hcls, hm⟩, hc'⟩ := h
    subst hcls
    subst hm
    subst hc'
    exact List.getLast?_concat _
  split at h
  · simp at h
  · dsimp only at h
    split at h
    · exact (not_handled_of_runtimeFault h hh).elim
    · rename_i conn heq
      split at h
      · rename_i e c2 heq2
        simp only [Prod.mk.injEq, Except.error.injEq] at h
        obtain ⟨he, hc'⟩ := h
        subst he
        subst hc'
        exact storeResult_logs heq2 hh
      · simp at h

/-- Every handled error escaping the `fetchmany` paging loop is logged
as the last message of the returned cursor. -/
theorem fetchmanyLoop_logs {cls : ExcClass} {m : PyStr} :
    ∀ (fuel : Nat) (e : Int) (acc : List Row) (c c' : Cursor),
      Cursor.fetchmanyLoop fuel e acc c = (.error (cls, m), c') →
      isHandled cls = true →
      c'.messages.getLast? = some (cls, m) := by
  intro fuel
  induction fuel with
  | zero =>
    intro e acc c c' h hh
    exact (not_handled_of_runtimeFault h hh).elim
  | succ fuel ih =>
    intro e acc c c' h hh
    have hstep : Cursor.fetchmanyLoop (fuel + 1) e acc c =
        (if e > c.rownumber then
          match c.nextset with
          | (.error er, c') => (.error er, c')
          | (.ok false, c') => (.ok acc, c')
          | (.ok true, c') =>
            Cursor.fetchmanyLoop fuel e
              (acc ++ pySlice c'.rows (c'.rownumber - c'.offset)
                (e - c'.offset))
              {c' with rownumber := min e ((c'.rows.length : Int) + c'.offset)}
        else (.ok acc, c)) := rfl
    rw [hstep] at h
    split at h
    · split at h
      · rename_i er c2 heq
        simp only [Prod.mk.injEq, Except.error.injEq] at h
        obtain ⟨he, hc'⟩ := h
        subst he
        subst hc'
        exact nextset_logs heq hh
      · simp at h
      · exact ih _ _ _ _ h hh
    · simp at h

/-- Every handled error escaping the `fetchall` paging loop is logged
as the last message of the returned cursor. -/
theorem fetchallLoop_logs {cls : ExcClass} {m : PyStr} :
    ∀ (fuel : Nat) (acc : List Row) (c c' : Cursor),
      Cursor.fetchallLoop fuel acc c = (.error (cls, m), c') →
      isHandled cls = true →
      c'.messages.getLast? = some (cls, m) := by
  intro fuel
  induction fuel with
  | zero =>
    intro acc c c' h hh
    exact (not_handled_of_runtimeFault h hh).elim
  | succ fuel ih =>
    intro acc c c' h hh
    have hstep : Cursor.fetchallLoop (fuel + 1) acc c =
        (match c.nextset with
        | (.error er, c') => (.error er, c')
        | (.ok false, c') => (.ok acc, c')
        | (.ok true, c') =>
          Cursor.fetchallLoop fuel (acc ++ c'.rows)
            {c' with rownumber := (c'.rows.length : Int) + c'.offset}) := rfl
    rw [hstep] at h
    split at h
    · rename_i er c2 heq
      simp only [Prod.mk.injEq, Except.error.injEq] at h
      obtain ⟨he, hc'⟩ := h
      subst he
      subst hc'
      exact nextset_logs heq hh
    · simp at h
    · exact ih _ _ _ h hh

/-- C9: every usage error, protocol decode error, and server-reported
error raised by a cursor operation (`fetchone`, `fetchmany`,
`fetchall`, `nextset`, `scroll`, `execute`) is appended, with the same
class and text, to the cursor's message log before the exception
reaches the caller — it is the last log entry of the returned
cursor. -/
theorem claim_C9 {cls : ExcClass} {m : PyStr} (hh : isHandled cls = true) :
    (∀ (c c' : Cursor), c.fetchone = (.error (cls, m), c') →
      c'.messages.getLast? = some (cls, m)) ∧
    (∀ (c c' : Cursor) (sz : Option Int), c.fetchmany sz = (.error (cls, m), c') →
      c'.messages.getLast? = some (cls, m)) ∧
    (∀ (c c' : Cursor), c.fetchall = (.error (cls, m), c') →
      c'.messages.getLast? = some (cls, m)) ∧
    (∀ (c c' : Cursor), c.nextset = (.error (cls, m), c') →
      c'.messages.getLast? = some (cls, m)) ∧
    (∀ (c c' : Cursor) (v : Int) (mode : PyStr),
      c.scroll v mode = (.error (cls, m), c') →
      c'.messages.getLast? = some (cls, m)) ∧
    (∀ (c c' : Cursor) (op : PyStr) (ps : PyParams),
      c.execute op ps = (.error (cls, m), c') →
      c'.messages.getLast? = some (cls, m)) := by
  refine ⟨?_, ?_, ?_, ?_, ?_, ?_⟩
  · intro c c' h
    unfold Cursor.fetchone at h
    split at h
    · simp only [Cursor.exceptionHandler] at h
      simp only [Prod.mk.injEq, Except.error.injEq] at h
      obtain ⟨⟨hcls, hm⟩, hc'⟩ := h
      subst hcls
      subst hm
      subst hc'
      exact List.getLast?_concat _
    split at h
    · simp only [Cursor.exceptionHandler] at h
      simp only [Prod.mk.injEq, Except.error.injEq] at h
      obtain ⟨⟨hcls, hm⟩, hc'⟩ := h
      subst hcls
      subst hm
      subst hc'
      exact List.getLast?_concat _
    split at h
    · simp at h
    · dsimp only at h
      by_cases hw : c.rownumber ≥ c.offset + (c.rows.length : Int)
      · rw [if_pos hw] at h
        rcases hns : c.nextset with ⟨res, c2⟩
        rw [hns] at h
        cases res with
        | error er =>
          dsimp only at h
          simp only [Prod.mk.injEq, Except.error.injEq] at h
          obtain ⟨he, hc'⟩ := h
          subst he
          subst hc'
          exact nextset_logs hns hh
        | ok b =>
          dsimp only at h
          rcases hg : pyGet c2.rows (c2.rownumber - c2.offset) with _ | r
          · rw [hg] at h
            dsimp only at h
            exact (not_handled_of_runtimeFault h hh).elim
          · rw [hg] at h
            dsimp only at h
            simp at h
      · rw [if_neg hw] at h
        dsimp only at h
        rcases hg : pyGet c.rows (c.rownumber - c.offset) with _ | r
        · rw [hg] at h
          dsimp only at h
          exact (not_handled_of_runtimeFault h hh).elim
        · rw [hg] at h
          dsimp only at h
          simp at h
  · intro c c' sz h
    unfold Cursor.fetchmany at h
    split at h
    · simp only [Cursor.exceptionHandler] at h
      simp only [Prod.mk.injEq, Except.error.injEq] at h
      obtain ⟨⟨hcls, hm⟩, hc'⟩ := h
      subst hcls
      subst hm
      subst hc'
      exact List.getLast?_concat _
    split at h
    · simp at h
    · dsimp only at h
      exact fetchmanyLoop_logs _ _ _ _ _ h hh
  · intro c c' h
    unfold Cursor.fetchall at h
    split at h
    · simp only [Cursor.exceptionHandler] at h
      simp only [Prod.mk.injEq, Except.error.injEq] at h
      obtain ⟨⟨hcls, hm⟩, hc'⟩ := h
      subst hcls
      subst hm
      subst hc'
      exact List.getLast?_concat _
    split at h
    · simp only [Cursor.exceptionHandler] at h
      simp only [Prod.mk.injEq, Except.error.injEq] at h
      obtain ⟨⟨hcls, hm⟩, hc'⟩ := h
      subst hcls
      subst hm
      subst hc'
      exact List.getLast?_concat _
    · dsimp only at h
      exact fetchallLoop_logs _ _ _ _ h hh
  · intro c c' h
    exact nextset_logs h hh
  · intro c c' v mode h
    unfold Cursor.scroll at h
    split at h
    · simp only [Cursor.exceptionHandler] at h
      simp only [Prod.mk.injEq, Except.error.injEq] at h
      obtain ⟨⟨hcls, hm⟩, hc'⟩ := h
      subst hcls
      subst hm
      subst hc'
      exact List.getLast?_concat _
    split at h
    · simp only [Cursor.exceptionHandler] at h
      simp only [Prod.mk.injEq, Except.error.injEq] at h
      obtain ⟨⟨hcls, hm⟩, hc'⟩ := h
      subst hcls
      subst hm
      subst hc'
      exact List.getLast?_concat _
    · dsimp only at h
      generalize (if mode = toPyStr "relative" then v + c.rownumber else v) = t
        at h
      split at h
      · simp only [Cursor.exceptionHandler] at h
        simp only [Prod.mk.injEq, Except.error.injEq] at h
        obtain ⟨⟨hcls, hm⟩, hc'⟩ := h
        subst hcls
        subst hm
        subst hc'
        exact List.getLast?_concat _
      · split at h
        · exact (not_handled_of_runtimeFault h hh).elim
        · rename_i conn heq
          split at h
          · rename_i e c2 heq2
            simp only [Prod.mk.injEq, Except.error.injEq] at h
            obtain ⟨he, hc'⟩ := h
            subst he
            subst hc'
            exact storeResult_logs heq2 hh
          · simp at h
  · intro c c' op ps h
    unfold Cursor.execute at h
    split at h
    · simp only [Cursor.exceptionHandler] at h
      simp only [Prod.mk.injEq, Except.error.injEq] at h
      obtain ⟨⟨hcls, hm⟩, hc'⟩ := h
      subst hcls
      subst hm
      subst hc'
      exact List.getLast?_concat _
    · rename_i conn0 heq0
      dsimp only at h
      by_cases ht : ps.truthy = true
      · rw [if_pos ht] at h
        cases ps with
        | noneP => simp [PyParams.truthy] at ht
        | dict items =>
          dsimp only at h
          split at h
          · rename_i e c2 heq2
            simp only [Prod.mk.injEq, Except.error.injEq] at h
            obtain ⟨he, hc'⟩ := h
            subst he
            subst hc'
            exact storeResult_logs heq2 hh
          · simp at h
        | listP items =>
          dsimp only at h
          split at h
          · rename_i e c2 heq2
            simp only [Prod.mk.injEq, Except.error.injEq] at h
            obtain ⟨he, hc'⟩ := h
            subst he
            subst hc'
            exact storeResult_logs heq2 hh
          · simp at h
        | strP s3 =>
          dsimp only at h
          split at h
          · rename_i e c2 heq2
            simp only [Prod.mk.injEq, Except.error.injEq] at h
            obtain ⟨he, hc'⟩ := h
            subst he
            subst hc'
            exact storeResult_logs heq2 hh
          · simp at h
        | other tn =>
          dsimp only at h
          simp only [Cursor.exceptionHandler] at h
          simp only [Prod.mk.injEq, Except.error.injEq] at h
          obtain ⟨⟨hcls, hm⟩, hc'⟩ := h
          subst hcls
          subst hm
          subst hc'
          exact List.getLast?_concat _
      · rw [if_neg ht] at h
        dsimp only at h
        split at h
        · rename_i e c2 heq2
          simp only [Prod.mk.injEq, Except.error.injEq] at h
          obtain ⟨he, hc'⟩ := h
          subst he
          subst hc'
          exact storeResult_logs heq2 hh
        · simp at h

/-- Witness for C9: the fetch-before-execute usage error on a fresh
cursor is raised and is the last entry of the message log. -/
theorem claim_C9_witness :
    (Cursor.init exConn).fetchone =
      (.error (.programmingError, toPyStr "do a execute() first"),
        {Cursor.init exConn with messages := (Cursor.init exConn).messages ++
          [(.programmingError, toPyStr "do a execute() first")]}) ∧
    ({Cursor.init exConn with messages := (Cursor.init exConn).messages ++
        [(ExcClass.programmingError, toPyStr "do a execute() first")]}).messages.getLast? =
      some (ExcClass.programmingError, toPyStr "do a execute() first") :=
  ⟨rfl, (claim_C9 (show isHandled .programmingError = true from by decide)).1
    (Cursor.init exConn) _ rfl⟩

/-- C10: for an executed tabular result, `scroll` raises its
out-of-range `IndexError` (logging it) exactly when the computed
target position exceeds `rowcount`; any target not above `rowcount` —
including `rowcount` itself and arbitrarily negative targets — is
accepted and immediately triggers the page-fetch command built from
that target. -/
theorem claim_C10 {qid : PyStr} {names types : List PyStr}
    {table : List (List PyStr)} {c : Cursor} {conn : Connection}
    (hconn : c.connection = some conn)
    (hreply : conn.reply = .resultSet qid names types table)
    (hqid : c.query_id = .qstr qid)
    (hrowcount : c.rowcount = (table.length : Int))
    (hexec : executedTruthy c.executed = true)
    (hq : goodQid qid)
    (hdesc : c.description = some (mkDesc names types))
    (hlen : names.length = types.length)
    (h1t : 1 ≤ types.length)
    (htable : goodTable types.length table)
    (v : Int) (mode : PyStr) (t : Int)
    (hmode : mode = toPyStr "relative" ∨ mode = toPyStr "absolute")
    (ht : t = if mode = toPyStr "relative" then v + c.rownumber else v) :
    ((table.length : Int) < t →
      c.scroll v mode = (.error (.indexErrorClass,
          toPyStr "value beyond length of resultset"),
        {c with messages := c.messages ++ [(.indexErrorClass,
          toPyStr "value beyond length of resultset")]})) ∧
    (t ≤ (table.length : Int) →
      c.scroll v mode = (.ok (), { c with
        offset := t
        connection := some {conn with log := conn.log ++
          [xexportCmd (.qstr qid) t
            (min (table.length : Int) (c.rownumber + c.arraysize) - t)]}
        rows := (sliceClip table t
          (min (table.length : Int) (c.rownumber + c.arraysize))).map
            (parsedRow types) })) := by
  refine ⟨?_, ?_⟩
  · intro hgt
    have hmodeok : ¬(mode ≠ toPyStr "relative" ∧ mode ≠ toPyStr "absolute") := by
      rintro ⟨h1, h2⟩
      rcases hmode with hm | hm
      · exact h1 hm
      · exact h2 hm
    unfold Cursor.scroll
    rw [if_neg (by simp [hexec]), if_neg hmodeok]
    rw [show (if mode = toPyStr "relative" then v + c.rownumber else v) = t from
      ht.symm]
    rw [if_pos (show t > c.rowcount from by rw [hrowcount]; omega)]
    rfl
  · intro hle
    exact scroll_ok hconn hreply hqid hrowcount hexec hq hdesc hlen h1t htable
      v mode t hmode ht hle

/-- Witness for C10: a negative relative target (`scroll(-3)` from
position `0`) on the four-row table. -/
theorem claim_C10_witness :
    (((ex1Table.length : Int)) < (-3) + ex1Cursor.rownumber →
      ex1Cursor.scroll (-3) (toPyStr "relative") =
        (.error (.indexErrorClass, toPyStr "value beyond length of resultset"),
          {ex1Cursor with messages := ex1Cursor.messages ++ [(.indexErrorClass,
            toPyStr "value beyond length of resultset")]})) ∧
    ((-3) + ex1Cursor.rownumber ≤ (ex1Table.length : Int) →
      ex1Cursor.scroll (-3) (toPyStr "relative") = (.ok (), { ex1Cursor with
        offset := (-3) + ex1Cursor.rownumber
        connection := some {ex1Conn with log := ex1Conn.log ++
          [xexportCmd (.qstr (toPyStr "9")) ((-3) + ex1Cursor.rownumber)
            (min (ex1Table.length : Int)
              (ex1Cursor.rownumber + ex1Cursor.arraysize) -
              ((-3) + ex1Cursor.rownumber))]}
        rows := (sliceClip ex1Table ((-3) + ex1Cursor.rownumber)
          (min (ex1Table.length : Int)
            (ex1Cursor.rownumber + ex1Cursor.arraysize))).map
              (parsedRow [toPyStr "int"]) })) :=
  claim_C10 rfl rfl rfl (by decide) (by decide) (by decide) rfl (by decide)
    (by decide) (by decide) (-3) (toPyStr "relative")
    ((-3) + ex1Cursor.rownumber) (Or.inl rfl) (by rw [if_pos rfl])
